import Mathlib

/-!
Verification development for the Montandon data-fetching scripts
(`Analysis_montandon/count_events_by_year.py`, `example_5.py`,
`example_3_optimized.py`, `count_events_per_collection.py`).

The Python scripts are shallowly embedded: pure computations become Lean
functions, HTTP traffic becomes explicit inputs (an `Option` response models
a request that may fail, a `List Page` models a finite chain of paged
responses linked by "next" links), and `datetime.now()` becomes an explicit
timestamp or year parameter.  Timestamps are naturals counting seconds since
1600-01-01T00:00:00Z; days are obtained by division by 86400.
-/

namespace Montandon

/-! ### Decimal rendering of numbers (Python f-string `{n}`) -/

/-- The decimal digit characters used by Python's `str`/f-string rendering. -/
def digCh : Nat → Char
  | 0 => '0' | 1 => '1' | 2 => '2' | 3 => '3' | 4 => '4'
  | 5 => '5' | 6 => '6' | 7 => '7' | 8 => '8' | 9 => '9'
  | _ => '?'

/-- Recursion core for decimal rendering; the first argument is fuel
bounding the number of divisions by 10 (any fuel above the number of
digits gives the same result, see `toCharsAux_congr`). -/
def toCharsAux : Nat → Nat → List Char
  | 0, _ => []
  | f + 1, n => if n < 10 then [digCh n] else toCharsAux f (n / 10) ++ [digCh (n % 10)]

/-- Decimal rendering of a natural number as a list of characters,
as produced by Python's `str(n)` (no padding, most significant first). -/
def toChars (n : Nat) : List Char := toCharsAux (n + 1) n

/-- The label `f"{s}-{e}"` built by the time partitioners. -/
def mkLabel (s e : Nat) : String :=
  ⟨toChars s ++ '-' :: toChars e⟩

/-! ### Lexicographic string order (Python `sorted` on strings) -/

/-- Lexicographic comparison of character lists by code point; this is the
order Python's `sorted` uses on strings. -/
def lexLt : List Char → List Char → Bool
  | [], [] => false
  | [], _ :: _ => true
  | _ :: _, [] => false
  | a :: as, b :: bs =>
    if a.toNat < b.toNat then true
    else if b.toNat < a.toNat then false
    else lexLt as bs

/-- String comparison used when modelling Python's `sorted` on labels. -/
def strLt (a b : String) : Bool := lexLt a.data b.data

/-- Insert into an ascending list (stable insertion sort step). -/
def insertAsc (x : String) : List String → List String
  | [] => [x]
  | y :: ys => if strLt x y then x :: y :: ys else y :: insertAsc x ys

/-- Ascending sort of strings, modelling Python's `sorted`. -/
def sortStr : List String → List String
  | [] => []
  | x :: xs => insertAsc x (sortStr xs)

/-- First-occurrence deduplication, modelling pandas `Series.unique`
(which keeps values in order of appearance). -/
def dedupFirst : List String → List String
  | [] => []
  | x :: xs => x :: (dedupFirst xs).filter (fun y => y ≠ x)

/-- `sorted(series.unique())`, the canonical period-column computation used
by both exporters. -/
def sortedUnique (l : List String) : List String := sortStr (dedupFirst l)

/-! ### Calendar: year of a model timestamp

Model timestamps count seconds since 1600-01-01T00:00:00Z (UTC, proleptic
Gregorian).  `yearOfDay` converts a day count since that epoch to the civil
year; it embeds the `.year` accessor of Python `datetime`. -/

/-- Civil year of a day count since 1600-01-01 (Gregorian).  584328 is the
number of days from 0000-03-01 to 1600-01-01, aligning the computation with
the standard era-based civil-calendar algorithm. -/
def yearOfDay (d : Nat) : Nat :=
  let z := d + 584328
  let era := z / 146097
  let doe := z % 146097
  let yoe := (doe - doe / 1460 + doe / 36524 - doe / 146096) / 365
  let y := yoe + era * 400
  let doy := doe - (365 * yoe + yoe / 4 - yoe / 100)
  let mp := (5 * doy + 2) / 153
  let m := if mp < 10 then mp + 3 else mp - 9
  if m ≤ 2 then y + 1 else y

/-- Year of a timestamp in seconds since the 1600-01-01 epoch
(`datetime.year` on the corresponding `datetime`). -/
def tsYear (t : Nat) : Nat := yearOfDay (t / 86400)

/-! ### Time partitioners -/

/-- A time bin of `count_events_by_year.generate_time_bins`: the source
appends `{"label": f"{start_year}-{end_year}", "start": start_year,
"end": end_year}` (`stop` stands for the Python key `"end"`). -/
structure Bin where
  label : String
  start : Nat
  stop : Nat
deriving DecidableEq

/-- Recursion core (on fuel) of the `while current_year <= end_year_limit`
loop of `count_events_by_year.generate_time_bins` (50-year bins, final bin
clipped to the limit year).  Each iteration shrinks `limit + 1 - cur` by at
least one, so that measure is adequate fuel. -/
def binLoopCEYAux : Nat → Nat → Nat → List Bin
  | 0, _, _ => []
  | f + 1, limit, cur =>
    if cur ≤ limit then
      let e := if cur + 49 > limit then limit else cur + 49
      ⟨mkLabel cur e, cur, e⟩ :: binLoopCEYAux f limit (cur + 50)
    else []

/-- The `while current_year <= end_year_limit` loop of
`count_events_by_year.generate_time_bins`. -/
def binLoopCEY (limit cur : Nat) : List Bin :=
  binLoopCEYAux (limit + 1 - cur) limit cur

/-- `count_events_by_year.generate_time_bins`, with `datetime.now().year`
made an explicit parameter `y`: two fixed 100-year bins (1600-1699,
1700-1799) followed by 50-year bins from 1800 clipped to `y`. -/
def genBinsCEY (y : Nat) : List Bin :=
  ⟨mkLabel 1600 1699, 1600, 1699⟩ ::
  ⟨mkLabel 1700 1799, 1700, 1799⟩ ::
  binLoopCEY y 1800

/-- A time bin of `example_5.generate_time_bins`: the source stores the
label plus ISO datetime strings for the bin boundaries; the boundary years
(`bin_start` / `bin_end` loop variables) are kept alongside. -/
structure Bin5 where
  label : String
  startDt : String
  endDt : String
  start : Nat
  stop : Nat
deriving DecidableEq

/-- The ISO start string `f"{y}-01-01T00:00:00Z"`. -/
def isoStart (y : Nat) : String := ⟨toChars y⟩ ++ "-01-01T00:00:00Z"

/-- The ISO end string `f"{y}-12-31T23:59:59Z"`. -/
def isoEnd (y : Nat) : String := ⟨toChars y⟩ ++ "-12-31T23:59:59Z"

/-- Recursion core (on fuel) of the `while current_year <= end_year` loop
of `example_5.generate_time_bins`.  The Python loop never terminates when
`interval == 0` (the script always calls it with 50), so the model guards
on `1 ≤ interval`; with that guard each iteration shrinks
`limit + 1 - cur` by at least one, so that measure is adequate fuel. -/
def binLoop5Aux : Nat → Nat → Nat → Nat → List Bin5
  | 0, _, _, _ => []
  | f + 1, limit, interval, cur =>
    if cur ≤ limit ∧ 1 ≤ interval then
      let e := if cur + interval - 1 > limit then limit else cur + interval - 1
      ⟨mkLabel cur e, isoStart cur, isoEnd e, cur, e⟩ ::
        binLoop5Aux f limit interval (cur + interval)
    else []

/-- The `while current_year <= end_year` loop of
`example_5.generate_time_bins`. -/
def binLoop5 (limit interval cur : Nat) : List Bin5 :=
  binLoop5Aux (limit + 1 - cur) limit interval cur

/-- `example_5.generate_time_bins(start_year, interval)` with
`datetime.now().year` an explicit parameter `y`. -/
def genBins5 (start interval y : Nat) : List Bin5 :=
  binLoop5 y interval start

/-- A time chunk of `example_3_optimized.generate_time_chunks`: raw
timestamp boundaries (seconds since the model epoch) plus the label
`f"{current_start.year}-{current_end.year}"`. -/
structure Chunk where
  start : Nat
  stop : Nat
  label : String
deriving DecidableEq

/-- Seconds in `timedelta(days=365 * years_per_chunk)`. -/
def chunkDelta (ypc : Nat) : Nat := 365 * ypc * 86400

/-- Recursion core (on fuel) of the `while current_start < end_date` loop
of `example_3_optimized.generate_time_chunks`.  The Python loop never
terminates when `years_per_chunk == 0` (the script calls it with 5), so
the model guards on `1 ≤ ypc`; with that guard each iteration shrinks
`e - cur` by at least one, so that measure is adequate fuel. -/
def chunkLoopAux : Nat → Nat → Nat → Nat → List Chunk
  | 0, _, _, _ => []
  | f + 1, e, ypc, cur =>
    if cur < e ∧ 1 ≤ ypc then
      let ce := min (cur + chunkDelta ypc) e
      ⟨cur, ce, mkLabel (tsYear cur) (tsYear ce)⟩ :: chunkLoopAux f e ypc ce
    else []

/-- The `while current_start < end_date` loop of
`example_3_optimized.generate_time_chunks`. -/
def chunkLoop (e ypc cur : Nat) : List Chunk :=
  chunkLoopAux (e - cur) e ypc cur

/-- `example_3_optimized.generate_time_chunks(start, end, years_per_chunk)`
over model timestamps. -/
def genTimeChunks (s e ypc : Nat) : List Chunk := chunkLoop e ypc s

/-! ### Interval chains

`YChain a b l` says the year bins `l` tile the closed year range `[a, b]`
left to right: the first bin starts at `a`, each bin is non-empty, each
next bin starts one year after the previous bin ends, and the last bin
ends at `b`.  `TChain a b l` is the timestamp analogue used for
`generate_time_chunks`, where consecutive chunks share a boundary instant
(so the chunks tile `[a, b)` as half-open intervals). -/

inductive YChain : Nat → Nat → List Bin → Prop
  | last (bin : Bin) (a b : Nat) :
      bin.start = a → bin.stop = b → a ≤ b → YChain a b [bin]
  | cons (bin : Bin) (a b : Nat) (rest : List Bin) :
      bin.start = a → a ≤ bin.stop → bin.stop < b →
      YChain (bin.stop + 1) b rest → YChain a b (bin :: rest)

inductive TChain : Nat → Nat → List Chunk → Prop
  | last (c : Chunk) (a b : Nat) :
      c.start = a → c.stop = b → a < b → TChain a b [c]
  | cons (c : Chunk) (a b : Nat) (rest : List Chunk) :
      c.start = a → a < c.stop → c.stop < b →
      TChain c.stop b rest → TChain a b (c :: rest)

/-- The C1 partition property for year bins over the closed range
`[a, b]`: exact coverage, pairwise disjointness (in chronological order),
and every bin clipped inside the range (in particular no bin extends past
`b`). -/
def binsPartition (a b : Nat) (l : List Bin) : Prop :=
  (∀ x, (a ≤ x ∧ x ≤ b) ↔ ∃ bin ∈ l, bin.start ≤ x ∧ x ≤ bin.stop) ∧
  List.Pairwise (fun b1 b2 => b1.stop < b2.start) l ∧
  (∀ bin ∈ l, a ≤ bin.start ∧ bin.start ≤ bin.stop ∧ bin.stop ≤ b) ∧
  (∃ bin ∈ l, bin.stop = b)

/-- The C1 partition property for timestamp chunks over the half-open
range `[a, b)`: exact coverage by the half-open chunk intervals, pairwise
disjointness, every chunk inside the range, and the final chunk clipped
exactly to the end timestamp. -/
def chunksPartition (a b : Nat) (l : List Chunk) : Prop :=
  (∀ x, (a ≤ x ∧ x < b) ↔ ∃ c ∈ l, c.start ≤ x ∧ x < c.stop) ∧
  List.Pairwise (fun c1 c2 => c1.stop ≤ c2.start) l ∧
  (∀ c ∈ l, a ≤ c.start ∧ c.start < c.stop ∧ c.stop ≤ b) ∧
  (∃ c ∈ l, c.stop = b)

/-! ### Pages and pagination

An HTTP page response is modelled by its parsed JSON content: a `features`
array (each feature reduced to the list of category codes under the
projected property) and a `links` array.  A pagination run is modelled by a
finite list of pages: the fetcher's `while url` loop consumes them in
order, continuing exactly when the current page has a link whose `rel` is
`"next"`.  Request failures are modelled by an explicit predicate giving,
per request, whether (or how often) it fails. -/

structure Link where
  rel : String
  href : String
deriving DecidableEq

/-- A page: `features` is the list of features, each reduced to its list of
category codes (`properties["monty:..."]`, default `[]`); `links` is the
response's `links` array. -/
structure Page where
  features : List (List String)
  links : List Link
deriving DecidableEq

/-- `next((link.get("href") for link in data.get("links", []) if
link.get("rel") == "next"), None)`: the href of the first link whose rel is
`"next"`. -/
def nextUrl (p : Page) : Option String :=
  (p.links.filter (fun l => l.rel = "next")).head?.map (fun l => l.href)

/-- A list of pages is a well-formed chain when every page except the last
has a "next" link and the final page has none. -/
def wfChain : List Page → Bool
  | [] => false
  | [p] => (nextUrl p).isNone
  | p :: q :: rest => (nextUrl p).isSome && wfChain (q :: rest)

/-- Sum over all pages of the length of the page's `features` array. -/
def sumLens (pages : List Page) : Nat :=
  (pages.map (fun p => p.features.length)).sum

/-- All category codes of a page, in feature order. -/
def pageCodes (p : Page) : List String := p.features.flatten

/-- All category codes of a page chain, in page then feature order. -/
def codesOf (pages : List Page) : List String :=
  (pages.map pageCodes).flatten

/-- Guard ruling out `fetch_counts_for_bin`'s empty-first-page early
return: the accumulated item count is positive, or the next page to be
processed has a non-empty `features` array. -/
def firstOk (items : Nat) : List Page → Bool
  | [] => true
  | p :: _ => decide (0 < items) || !p.features.isEmpty

/-! ### `example_3_optimized.fetch_time_chunk` -/

/-- The object written to the error log by `write_error_entry`:
`{collection, time_chunk, page, reason}`. -/
structure ErrorEntry where
  collection : String
  timeChunk : String
  page : Nat
  reason : String
deriving DecidableEq

/-- `max_retries` in `fetch_time_chunk`. -/
def maxRetries : Nat := 3

/-- `f"Failed after {max_retries} attempts: ..."` (the exception text is
abstracted away). -/
def failReason : String := "Failed after 3 attempts"

/-- The sleeps `2 ** attempt` performed for `k` consecutive failed
attempts. -/
def backoffDelays (k : Nat) : List Nat := (List.range k).map (fun a => 2 ^ a)

/-- Observable outcome of one `fetch_time_chunk` task: the tallied category
codes (the `Counter` is the multiset of these), the `total_items` counter,
the error entries appended to the error file, and the per-page-request
sleep sequences. -/
structure ChunkResult where
  tallies : List String
  items : Nat
  errors : List ErrorEntry
  delays : List (List Nat)
deriving DecidableEq

/-- The `while url` / `for attempt in range(max_retries)` loops of
`fetch_time_chunk`.  `failures pc` is the number of consecutive failed
attempts for the request with `page_count = pc`; if it reaches
`max_retries` the task writes one error entry and returns the counter
accumulated so far. -/
def fetchTimeChunkGo (cid lbl : String) (failures : Nat → Nat) :
    List Page → Nat → ChunkResult → ChunkResult
  | [], _, acc => acc
  | p :: rest, pc, acc =>
    if maxRetries ≤ failures pc then
      { acc with
        errors := acc.errors ++ [⟨cid, lbl, pc, failReason⟩],
        delays := acc.delays ++ [backoffDelays maxRetries] }
    else
      let acc2 : ChunkResult :=
        { tallies := acc.tallies ++ pageCodes p,
          items := acc.items + p.features.length,
          errors := acc.errors,
          delays := acc.delays ++ [backoffDelays (failures pc)] }
      match nextUrl p with
      | none => acc2
      | some _ => fetchTimeChunkGo cid lbl failures rest (pc + 1) acc2

/-- `example_3_optimized.fetch_time_chunk` on a synthetic page chain. -/
def fetchTimeChunk (cid lbl : String) (failures : Nat → Nat)
    (pages : List Page) : ChunkResult :=
  fetchTimeChunkGo cid lbl failures pages 1 ⟨[], 0, [], []⟩

/-! ### `example_5.fetch_counts_for_bin` -/

/-- Observable outcome of one `fetch_counts_for_bin` task: the returned
`(collection_id, bin_label, counter)` triple (the counter again as the
multiset of tallied codes), the internal `items_fetched` counter, and the
error entries written (`example_5` has no error log, so this is `[]` on
every path). -/
structure BinResult where
  collection : String
  period : String
  tallies : List String
  items : Nat
  errors : List ErrorEntry
deriving DecidableEq

/-- The `while url` loop of `fetch_counts_for_bin`.  `fails r` tells
whether the request with index `r` fails (a single attempt per request: the
function has no retry); on failure it returns an empty counter, discarding
`acc`.  A first page with an empty `features` array triggers the early
`return collection_id, bin_label, Counter()`. -/
def fetchCountsGo (cid lbl : String) (fails : Nat → Bool) :
    List Page → Nat → List String → Nat → BinResult
  | [], _, acc, items => ⟨cid, lbl, acc, items, []⟩
  | p :: rest, r, acc, items =>
    if fails r then ⟨cid, lbl, [], items, []⟩
    else if p.features.isEmpty && items = 0 then ⟨cid, lbl, [], 0, []⟩
    else
      let items2 := items + p.features.length
      let acc2 := acc ++ pageCodes p
      match nextUrl p with
      | none => ⟨cid, lbl, acc2, items2, []⟩
      | some _ => fetchCountsGo cid lbl fails rest (r + 1) acc2 items2

/-- `example_5.fetch_counts_for_bin` on a synthetic page chain. -/
def fetchCountsForBin (cid lbl : String) (fails : Nat → Bool)
    (pages : List Page) : BinResult :=
  fetchCountsGo cid lbl fails pages 0 [] 0

/-! ### `count_events_per_collection.count_items_manually` -/

/-- The `while url` loop of `count_items_manually`: sums `len(features)`
over the chain; a failing request makes the whole call return the string
`"Error during manual count"`. -/
def countItemsGo (fails : Nat → Bool) :
    List Page → Nat → Nat → Except String Nat
  | [], _, acc => .ok acc
  | p :: rest, r, acc =>
    if fails r then .error "Error during manual count"
    else
      let acc2 := acc + p.features.length
      match nextUrl p with
      | none => .ok acc2
      | some _ => countItemsGo fails rest (r + 1) acc2

/-- `count_events_per_collection.count_items_manually` on a synthetic page
chain. -/
def countItemsManually (fails : Nat → Bool) (pages : List Page) :
    Except String Nat :=
  countItemsGo fails pages 0 0

/-! ### Count mode: `count_events_by_year.fetch_count_for_bin` and
`count_events_per_collection.fetch_collection_count` -/

/-- The part of an `/items` response body read by the count-mode fetchers:
the optional `numberMatched` field, plus the `links` array (present in the
body but never read in count mode). -/
structure ItemsResp where
  numberMatched : Option Int
  links : List Link
deriving DecidableEq

/-- The `event_count` value of a result row: an integer, or the string
`"Error"` stored on request failure. -/
inductive CountVal
  | num (n : Int)
  | err
deriving DecidableEq

/-- One result row of `count_events_by_year`:
`{"collection": ..., "time_period": ..., "event_count": ...}`. -/
structure CountRecord where
  collection : String
  period : String
  count : CountVal
deriving DecidableEq

/-- The single count-mode request URL
`f"{BASE_URL}/collections/{collection_id}/items?limit=1&datetime={datetime_range}"`. -/
def countUrl (baseUrl cid rng : String) : String :=
  baseUrl ++ "/collections/" ++ cid ++ "/items?limit=1&datetime=" ++ rng

/-- `count_events_by_year.fetch_count_for_bin`: one request (`resp = none`
models a request failure); a missing `numberMatched` yields count 0 plus a
console warning (returned as the list of warnings printed). -/
def fetchCountForBin (cid lbl : String) (resp : Option ItemsResp) :
    CountRecord × List String :=
  match resp with
  | none => (⟨cid, lbl, .err⟩, [])
  | some r =>
    match r.numberMatched with
    | some n => (⟨cid, lbl, .num n⟩, [])
    | none =>
      (⟨cid, lbl, .num 0⟩,
        ["WARNING: numberMatched not found for " ++ cid ++ " in " ++ lbl ++
         ". Count is 0."])

/-- The collection metadata body read by `fetch_collection_count`:
`data.get("summaries", {}).get("monty:count")`. -/
structure CollMeta where
  montyCount : Option Int
deriving DecidableEq

/-- The `total_events` value of `count_events_per_collection`: an integer
or one of the error strings. -/
inductive TotalVal
  | num (n : Int)
  | str (s : String)
deriving DecidableEq

/-- One result row of `count_events_per_collection`:
`{"collection_id": ..., "total_events": ...}`. -/
structure CollCount where
  collection : String
  total : TotalVal
deriving DecidableEq

/-- `count_events_per_collection.fetch_collection_count`: summary count
first, then `numberMatched` from a `limit=1` items request, then a manual
full-pagination count.  `meta = none` / `items = none` model failures of
the two metadata requests (caught by the function's outer handler);
`pages`/`fails` feed the manual count. -/
def fetchCollectionCount (cid : String) (meta : Option CollMeta)
    (items : Option ItemsResp) (fails : Nat → Bool) (pages : List Page) :
    CollCount :=
  match meta with
  | none => ⟨cid, .str "Error"⟩
  | some m =>
    match m.montyCount with
    | some n => ⟨cid, .num n⟩
    | none =>
      match items with
      | none => ⟨cid, .str "Error"⟩
      | some ir =>
        match ir.numberMatched with
        | some n => ⟨cid, .num n⟩
        | none =>
          match countItemsManually fails pages with
          | .ok n => ⟨cid, .num (Int.ofNat n)⟩
          | .error s => ⟨cid, .str s⟩

/-! ### Collection listings -/

/-- One entry of the `/collections` listing: an `id` and a `roles` array. -/
structure CollEntry where
  id : String
  roles : List String
deriving DecidableEq

/-- `count_events_by_year.get_event_collections`: on request failure
(`none`) it returns `[]` (printing FATAL); otherwise the ids whose `roles`
contain `"event"`. -/
def getEventCollections (resp : Option (List CollEntry)) : List String :=
  match resp with
  | none => []
  | some cs => (cs.filter (fun c => c.roles.contains "event")).map (fun c => c.id)

/-- `count_events_per_collection.get_all_collections`: on request failure
it returns `[]`; otherwise every id. -/
def getAllCollections (resp : Option (List CollEntry)) : List String :=
  match resp with
  | none => []
  | some cs => cs.map (fun c => c.id)

/-- Character-list prefix test. -/
def pfx : List Char → List Char → Bool
  | [], _ => true
  | _ :: _, [] => false
  | a :: as, b :: bs => a = b && pfx as bs

/-- Python's substring test `pat in s` over character lists. -/
def subList (pat : List Char) : List Char → Bool
  | [] => pat.isEmpty
  | c :: rest => pfx pat (c :: rest) || subList pat rest

/-- Python's `pat in s` on strings. -/
def strContains (s pat : String) : Bool := subList pat.data s.data

/-- `example_5.get_hazard_collections`: the listing is paged; any request
failure during paging aborts the whole listing with `[]` (modelled by
`none`); otherwise the ids containing the substring `"-events"`. -/
def getHazardCollections (resp : Option (List CollEntry)) : List String :=
  match resp with
  | none => []
  | some cs =>
    (cs.map (fun c => c.id)).filter (fun i => strContains i "-events")

/-! ### Aggregation and export: `count_events_by_year.main` -/

/-- Integer value of a non-error count (errored rows are filtered before
this is used). -/
def countInt : CountVal → Int
  | .num n => n
  | .err => 0

/-- Pivot cell value for `count_events_by_year`: the aggregated
`event_count` of the records of one collection at one period (for the one
record per key the scripts produce, this is that record's count; absent
keys aggregate to the `fillna(0)` / `fill_value=0` default 0). -/
def cellValY (rc : List CountRecord) (per : String) : Int :=
  ((rc.filter (fun r => r.period == per)).map (fun r => countInt r.count)).sum

/-- One sheet of `event_counts_by_year.xlsx`: a single data row (the
collection), with one cell per column. -/
structure SheetY where
  name : String
  cols : List String
  cells : List Int
deriving DecidableEq

/-- The pivot + `reindex(columns=all_time_periods, fill_value=0)` for one
collection of `count_events_by_year.main`. -/
def sheetForY (kept : List CountRecord) (c : String) (allP : List String) :
    SheetY :=
  let rc := kept.filter (fun r => r.collection == c)
  let pCols := sortedUnique (rc.map (fun r => r.period))
  ⟨c, allP, allP.map (fun p => if p ∈ pCols then cellValY rc p else 0)⟩

/-- The export stage of `count_events_by_year.main`: filter out `"Error"`
rows, list sheet names as `sorted(df_long['collection'].unique())`, columns
as `sorted(df_long['time_period'].unique())`, one sheet per collection. -/
def exportByYear (records : List CountRecord) : List SheetY :=
  let kept := records.filter (fun r => decide (r.count ≠ CountVal.err))
  let allP := sortedUnique (kept.map (fun r => r.period))
  (sortedUnique (kept.map (fun r => r.collection))).map
    (fun c => sheetForY kept c allP)

/-- Observable outcome of a `count_events_by_year.main` run. -/
structure RunByYear where
  tasks : List (String × String)
  records : List CountRecord
  outputWritten : Bool
  sheets : List SheetY
deriving DecidableEq

/-- `count_events_by_year.main`, with the current year `y`, the listing
response and the per-task items response as explicit inputs (`env c l` is
the response for collection `c` and bin label `l`; `none` is a request
failure).  The thread pool only affects completion order, which the sorted
export makes irrelevant, so tasks are evaluated in submission order. -/
def mainByYear (y : Nat) (listing : Option (List CollEntry))
    (env : String → String → Option ItemsResp) : RunByYear :=
  let colls := getEventCollections listing
  if colls.isEmpty then ⟨[], [], false, []⟩
  else
    let bins := genBinsCEY y
    let tasks := colls.flatMap (fun c => bins.map (fun b => (c, b.label)))
    let records := tasks.map
      (fun t => (fetchCountForBin t.1 t.2 (env t.1 t.2)).1)
    if records.isEmpty then ⟨tasks, [], false, []⟩
    else ⟨tasks, records, true, exportByYear records⟩

/-! ### Aggregation and export: `example_5.main` -/

/-- One flat row of `example_5`'s `all_results`:
`{"collection", "time_period", "hazard_code", "event_count"}`. -/
structure RRec where
  collection : String
  period : String
  category : String
  count : Nat
deriving DecidableEq

/-- The `Counter` of a list of codes, as key/count pairs in
first-occurrence key order. -/
def counterOf (codes : List String) : List (String × Nat) :=
  (dedupFirst codes).map (fun c => (c, codes.count c))

/-- The result-collection loop of `example_5.main`: each task's counter is
flattened into rows (an empty counter, skipped by `if counts:` in the
source, contributes nothing either way). -/
def aggregate5 (outs : List BinResult) : List RRec :=
  outs.flatMap (fun o =>
    (counterOf o.tallies).map (fun p => ⟨o.collection, o.period, p.1, p.2⟩))

/-- Pivot cell value for `example_5`: aggregated `event_count` of one
collection's records at one (hazard code, period) key. -/
def cellVal5 (rc : List RRec) (cat per : String) : Nat :=
  ((rc.filter (fun r => r.category == cat && r.period == per)).map
    (fun r => r.count)).sum

/-- One sheet of `hazard_counts_by_year_and_type.xlsx`: rows indexed by
hazard code, one cell row per index entry aligned with `cols`. -/
structure Sheet5 where
  name : String
  rowsIdx : List String
  cols : List String
  cells : List (List Nat)
deriving DecidableEq

/-- The `pivot_table(index='hazard_code', columns='time_period',
values='event_count', fill_value=0)` + `reindex(columns=time_period_order,
fill_value=0)` for one collection of `example_5.main`. -/
def sheetFor5 (rs : List RRec) (c : String) (allP : List String) : Sheet5 :=
  let rc := rs.filter (fun r => r.collection == c)
  let pCols := sortedUnique (rc.map (fun r => r.period))
  let idx := sortedUnique (rc.map (fun r => r.category))
  ⟨c, idx, allP,
    idx.map (fun cat =>
      allP.map (fun p => if p ∈ pCols then cellVal5 rc cat p else 0))⟩

/-- The export stage of `example_5.main`: column order
`sorted(df_long['time_period'].unique())`, sheets for
`df_long['collection'].unique()` in appearance order. -/
def export5 (rs : List RRec) : List Sheet5 :=
  let allP := sortedUnique (rs.map (fun r => r.period))
  (dedupFirst (rs.map (fun r => r.collection))).map
    (fun c => sheetFor5 rs c allP)

/-- Observable outcome of an `example_5.main` run. -/
structure RunFive where
  tasks : List (String × String)
  rows : List RRec
  outputWritten : Bool
  sheets : List Sheet5
deriving DecidableEq

/-- `example_5.main` with current year, listing response and per-task page
chains (`env c l` gives the failure pattern and the page chain served for
collection `c` and bin label `l`). -/
def mainFive (y : Nat) (listing : Option (List CollEntry))
    (env : String → String → (Nat → Bool) × List Page) : RunFive :=
  let colls := getHazardCollections listing
  if colls.isEmpty then ⟨[], [], false, []⟩
  else
    let bins := genBins5 1800 50 y
    let tasks := colls.flatMap (fun c => bins.map (fun b => (c, b.label)))
    let outs := tasks.map
      (fun t => fetchCountsForBin t.1 t.2 (env t.1 t.2).1 (env t.1 t.2).2)
    let rs := aggregate5 outs
    if rs.isEmpty then ⟨tasks, [], false, []⟩
    else ⟨tasks, rs, true, export5 rs⟩

/-! ### CSV output: `example_3_optimized.main` -/

/-- Descending insertion by count. -/
def insertDesc (x : String × Nat) :
    List (String × Nat) → List (String × Nat)
  | [] => [x]
  | y :: ys => if y.2 < x.2 then x :: y :: ys else y :: insertDesc x ys

/-- `Counter.most_common()`: the tallies sorted by count in descending
order (the order among equal counts is not relied on by anything here). -/
def mostCommon : List (String × Nat) → List (String × Nat)
  | [] => []
  | x :: xs => insertDesc x (mostCommon xs)

/-- The rows written to `event_counts_by_country_usgs_optimized.csv`: the
header, then one `[country, str(count)]` row per entry of
`most_common()`. -/
def writeCsv (counts : List (String × Nat)) : List (List String) :=
  ["country_code", "event_count"] ::
    (mostCommon counts).map (fun p => [p.1, String.mk (toChars p.2)])

/-! ## Lemmas about interval chains -/

theorem ychain_bounds {a b : Nat} {l : List Bin} (h : YChain a b l) :
    ∀ bin ∈ l, a ≤ bin.start ∧ bin.start ≤ bin.stop ∧ bin.stop ≤ b := by
  induction h with
  | last bin a b h1 h2 h3 =>
    intro x hx
    simp only [List.mem_singleton] at hx
    subst hx; omega
  | cons bin a b rest h1 h2 h3 _ ih =>
    intro x hx
    rcases List.mem_cons.mp hx with hx | hx
    · subst hx; omega
    · have := ih x hx; omega

theorem ychain_cover {a b : Nat} {l : List Bin} (h : YChain a b l) :
    ∀ x, (a ≤ x ∧ x ≤ b) ↔ ∃ bin ∈ l, bin.start ≤ x ∧ x ≤ bin.stop := by
  induction h with
  | last bin a b h1 h2 h3 =>
    intro x
    constructor
    · intro hx; exact ⟨bin, List.mem_singleton_self bin, by omega⟩
    · rintro ⟨c, hc, hx⟩
      simp only [List.mem_singleton] at hc
      subst hc; omega
  | cons bin a b rest h1 h2 h3 hch ih =>
    intro x
    constructor
    · intro hx
      by_cases hle : x ≤ bin.stop
      · exact ⟨bin, List.mem_cons_self bin rest, by omega⟩
      · obtain ⟨c, hc, hxc⟩ := (ih x).mp (by omega)
        exact ⟨c, List.mem_cons_of_mem bin hc, hxc⟩
    · rintro ⟨c, hc, hxc⟩
      rcases List.mem_cons.mp hc with hc | hc
      · subst hc; omega
      · have := ychain_bounds hch c hc; omega

theorem ychain_pairwise {a b : Nat} {l : List Bin} (h : YChain a b l) :
    l.Pairwise (fun b1 b2 => b1.stop < b2.start) := by
  induction h with
  | last bin a b h1 h2 h3 => exact List.pairwise_singleton _ _
  | cons bin a b rest h1 h2 h3 hch ih =>
    refine List.pairwise_cons.mpr ⟨?_, ih⟩
    intro c hc
    have := ychain_bounds hch c hc
    omega

theorem ychain_first {a b : Nat} {bin : Bin} {rest : List Bin}
    (h : YChain a b (bin :: rest)) : bin.start = a := by
  cases h with
  | last _ _ _ h1 _ _ => exact h1
  | cons _ _ _ _ h1 _ _ _ => exact h1

theorem ychain_final {a b : Nat} {l : List Bin} (h : YChain a b l) :
    ∃ bin ∈ l, bin.stop = b := by
  induction h with
  | last bin a b h1 h2 h3 => exact ⟨bin, List.mem_singleton_self _, h2⟩
  | cons bin a b rest h1 h2 h3 hch ih =>
    obtain ⟨c, hc, hcb⟩ := ih
    exact ⟨c, List.mem_cons_of_mem _ hc, hcb⟩

theorem ychain_partition {a b : Nat} {l : List Bin} (h : YChain a b l) :
    binsPartition a b l :=
  ⟨ychain_cover h, ychain_pairwise h, ychain_bounds h, ychain_final h⟩

theorem tchain_bounds {a b : Nat} {l : List Chunk} (h : TChain a b l) :
    ∀ c ∈ l, a ≤ c.start ∧ c.start < c.stop ∧ c.stop ≤ b := by
  induction h with
  | last c a b h1 h2 h3 =>
    intro x hx
    simp only [List.mem_singleton] at hx
    subst hx; omega
  | cons c a b rest h1 h2 h3 _ ih =>
    intro x hx
    rcases List.mem_cons.mp hx with hx | hx
    · subst hx; omega
    · have := ih x hx; omega

theorem tchain_cover {a b : Nat} {l : List Chunk} (h : TChain a b l) :
    ∀ x, (a ≤ x ∧ x < b) ↔ ∃ c ∈ l, c.start ≤ x ∧ x < c.stop := by
  induction h with
  | last c a b h1 h2 h3 =>
    intro x
    constructor
    · intro hx; exact ⟨c, List.mem_singleton_self c, by omega⟩
    · rintro ⟨d, hd, hx⟩
      simp only [List.mem_singleton] at hd
      subst hd; omega
  | cons c a b rest h1 h2 h3 hch ih =>
    intro x
    constructor
    · intro hx
      by_cases hle : x < c.stop
      · exact ⟨c, List.mem_cons_self c rest, by omega⟩
      · obtain ⟨d, hd, hxd⟩ := (ih x).mp (by omega)
        exact ⟨d, List.mem_cons_of_mem c hd, hxd⟩
    · rintro ⟨d, hd, hxd⟩
      rcases List.mem_cons.mp hd with hd | hd
      · subst hd; omega
      · have := tchain_bounds hch d hd; omega

theorem tchain_pairwise {a b : Nat} {l : List Chunk} (h : TChain a b l) :
    l.Pairwise (fun c1 c2 => c1.stop ≤ c2.start) := by
  induction h with
  | last c a b h1 h2 h3 => exact List.pairwise_singleton _ _
  | cons c a b rest h1 h2 h3 hch ih =>
    refine List.pairwise_cons.mpr ⟨?_, ih⟩
    intro d hd
    have := tchain_bounds hch d hd
    omega

theorem tchain_final {a b : Nat} {l : List Chunk} (h : TChain a b l) :
    ∃ c ∈ l, c.stop = b := by
  induction h with
  | last c a b h1 h2 h3 => exact ⟨c, List.mem_singleton_self _, h2⟩
  | cons c a b rest h1 h2 h3 hch ih =>
    obtain ⟨d, hd, hdb⟩ := ih
    exact ⟨d, List.mem_cons_of_mem _ hd, hdb⟩

theorem tchain_partition {a b : Nat} {l : List Chunk} (h : TChain a b l) :
    chunksPartition a b l :=
  ⟨tchain_cover h, tchain_pairwise h, tchain_bounds h, tchain_final h⟩

/-! ## The generated bin sequences form chains -/

theorem binLoopCEYAux_nil (limit cur : Nat) (h : ¬ cur ≤ limit) :
    ∀ f, binLoopCEYAux f limit cur = [] := by
  intro f
  cases f with
  | zero => rfl
  | succ f => simp [binLoopCEYAux, h]

theorem binLoopCEYAux_chain (limit : Nat) :
    ∀ f cur, limit + 1 - cur ≤ f → cur ≤ limit →
    YChain cur limit (binLoopCEYAux f limit cur) := by
  intro f
  induction f with
  | zero => intro cur h1 h2; omega
  | succ f ih =>
    intro cur h1 h2
    simp only [binLoopCEYAux, h2, if_true]
    by_cases hc : cur + 50 ≤ limit
    · have he : ¬ (cur + 49 > limit) := by omega
      simp only [he, if_false]
      exact YChain.cons _ _ _ _ rfl ((by omega : cur ≤ cur + 49))
        ((by omega : cur + 49 < limit)) (ih (cur + 50) (by omega) (by omega))
    · have hstop : binLoopCEYAux f limit (cur + 50) = [] :=
        binLoopCEYAux_nil limit (cur + 50) (by omega) f
      by_cases hd : cur + 49 > limit
      · simp only [hd, if_true, hstop]
        exact YChain.last _ _ _ rfl rfl h2
      · simp only [hd, if_false, hstop]
        have hlim : cur + 49 = limit := by omega
        exact hlim ▸ YChain.last _ _ _ rfl rfl (by omega)

theorem binLoopCEY_chain (limit cur : Nat) (h : cur ≤ limit) :
    YChain cur limit (binLoopCEY limit cur) :=
  binLoopCEYAux_chain limit (limit + 1 - cur) cur (Nat.le_refl _) h

theorem genBinsCEY_chain {y : Nat} (hy : 1800 ≤ y) :
    YChain 1600 y (genBinsCEY y) := by
  refine YChain.cons _ _ _ _ rfl ((by omega : (1600:Nat) ≤ 1699))
    ((by omega : 1699 < y)) ?_
  refine YChain.cons _ _ _ _ rfl ((by omega : (1700:Nat) ≤ 1799))
    ((by omega : 1799 < y)) ?_
  exact binLoopCEY_chain y 1800 hy

theorem binLoop5Aux_nil (limit interval cur : Nat)
    (h : ¬ (cur ≤ limit ∧ 1 ≤ interval)) :
    ∀ f, binLoop5Aux f limit interval cur = [] := by
  intro f
  cases f with
  | zero => rfl
  | succ f => simp only [binLoop5Aux, if_neg h]

theorem binLoop5Aux_chain (limit interval : Nat) (hi : 1 ≤ interval) :
    ∀ f cur, limit + 1 - cur ≤ f → cur ≤ limit →
    YChain cur limit ((binLoop5Aux f limit interval cur).map
      (fun b => ⟨b.label, b.start, b.stop⟩)) := by
  intro f
  induction f with
  | zero => intro cur h1 h2; omega
  | succ f ih =>
    intro cur h1 h2
    have hcond : cur ≤ limit ∧ 1 ≤ interval := ⟨h2, hi⟩
    simp only [binLoop5Aux, if_pos hcond, List.map_cons]
    by_cases hc : cur + interval ≤ limit
    · have he : ¬ (cur + interval - 1 > limit) := by omega
      simp only [he, if_false]
      refine YChain.cons _ _ _ _ rfl ((by omega : cur ≤ cur + interval - 1))
        ((by omega : cur + interval - 1 < limit)) ?_
      have heq : cur + interval = cur + interval - 1 + 1 := by omega
      exact heq ▸ ih (cur + interval) (by omega) (by omega)
    · have hstop : binLoop5Aux f limit interval (cur + interval) = [] :=
        binLoop5Aux_nil limit interval (cur + interval) (by omega) f
      by_cases hd : cur + interval - 1 > limit
      · simp only [hd, if_true, hstop, List.map_nil]
        exact YChain.last _ _ _ rfl rfl h2
      · simp only [hd, if_false, hstop, List.map_nil]
        have hlim : cur + interval - 1 = limit := by omega
        exact hlim ▸ YChain.last _ _ _ rfl rfl (by omega)

theorem binLoop5_chain (limit interval cur : Nat) (hi : 1 ≤ interval)
    (h : cur ≤ limit) :
    YChain cur limit ((binLoop5 limit interval cur).map
      (fun b => ⟨b.label, b.start, b.stop⟩)) :=
  binLoop5Aux_chain limit interval hi (limit + 1 - cur) cur (Nat.le_refl _) h

theorem chunkLoopAux_nil (e ypc cur : Nat) (h : ¬ (cur < e ∧ 1 ≤ ypc)) :
    ∀ f, chunkLoopAux f e ypc cur = [] := by
  intro f
  cases f with
  | zero => rfl
  | succ f => simp only [chunkLoopAux, if_neg h]

theorem chunkLoopAux_chain (e ypc : Nat) (hy : 1 ≤ ypc) :
    ∀ f cur, e - cur ≤ f → cur < e →
    TChain cur e (chunkLoopAux f e ypc cur) := by
  intro f
  induction f with
  | zero => intro cur h1 h2; omega
  | succ f ih =>
    intro cur h1 h2
    have hcond : cur < e ∧ 1 ≤ ypc := ⟨h2, hy⟩
    simp only [chunkLoopAux, if_pos hcond]
    have hdelta : 1 ≤ chunkDelta ypc := by
      simp only [chunkDelta]; omega
    by_cases hc : cur + chunkDelta ypc < e
    · have hmin : min (cur + chunkDelta ypc) e = cur + chunkDelta ypc := by
        omega
      rw [hmin]
      exact TChain.cons _ _ _ _ rfl ((by omega : cur < cur + chunkDelta ypc))
        hc (ih (cur + chunkDelta ypc) (by omega) hc)
    · have hmin : min (cur + chunkDelta ypc) e = e := by omega
      rw [hmin]
      have hstop : chunkLoopAux f e ypc e = [] :=
        chunkLoopAux_nil e ypc e (by omega) f
      rw [hstop]
      exact TChain.last _ _ _ rfl rfl h2

theorem chunkLoop_chain (e ypc cur : Nat) (hy : 1 ≤ ypc) (h : cur < e) :
    TChain cur e (chunkLoop e ypc cur) :=
  chunkLoopAux_chain e ypc hy (e - cur) cur (Nat.le_refl _) h

/-! ## C1: generated time-bin sequences partition the configured range -/

/-- C1: every bin sequence produced by a time partitioner — `generate_time_bins`
of `count_events_by_year.py` (start 1600, current year `y`),
`generate_time_bins` of `example_5.py` (start year `s`, interval `i`,
current year `y`), and `generate_time_chunks` of `example_3_optimized.py`
(start timestamp `st`, current timestamp `e`, `ypc` years per chunk) — is
an ordered, contiguous, pairwise non-overlapping sequence whose union
covers exactly the range from the configured start to the current date,
with the final bin clipped to the current date (never extending past it).
Year bins are closed intervals (adjacent bins touch at consecutive years);
chunks tile the timestamp range as half-open intervals (adjacent chunks
share the boundary instant). -/
theorem claim_C1 (y s i st e ypc : Nat) (hy : 1800 ≤ y) (hs : s ≤ y)
    (hi : 1 ≤ i) (hse : st < e) (hypc : 1 ≤ ypc) :
    binsPartition 1600 y (genBinsCEY y) ∧
    binsPartition s y
      ((genBins5 s i y).map (fun b => ⟨b.label, b.start, b.stop⟩)) ∧
    chunksPartition st e (genTimeChunks st e ypc) := by
  refine ⟨ychain_partition (genBinsCEY_chain hy), ?_, ?_⟩
  · exact ychain_partition (binLoop5_chain y i s hi hs)
  · exact tchain_partition (chunkLoop_chain e ypc st hypc hse)

/-- C1 witness: the partition property at the current year 2026 and, for
the chunk partitioner, at the script's configured 1934 start with a
current timestamp in 2026. -/
theorem claim_C1_witness :
    binsPartition 1600 2026 (genBinsCEY 2026) ∧
    binsPartition 1800 2026
      ((genBins5 1800 50 2026).map (fun b => ⟨b.label, b.start, b.stop⟩)) ∧
    chunksPartition 10540022400 13447000000 (genTimeChunks 10540022400 13447000000 5) :=
  claim_C1 2026 1800 50 10540022400 13447000000 5 (by decide) (by decide)
    (by decide) (by decide) (by decide)

/-! ## Decimal labels and lexicographic order (towards C10) -/

theorem toCharsAux_congr : ∀ n f g, n < f → n < g →
    toCharsAux f n = toCharsAux g n := by
  intro n
  induction n using Nat.strong_induction_on with
  | _ n ih =>
    intro f g hf hg
    obtain ⟨f2, rfl⟩ : ∃ f2, f = f2 + 1 := ⟨f - 1, by omega⟩
    obtain ⟨g2, rfl⟩ : ∃ g2, g = g2 + 1 := ⟨g - 1, by omega⟩
    simp only [toCharsAux]
    by_cases h10 : n < 10
    · simp [h10]
    · simp only [h10, if_false]
      rw [ih (n / 10) (by omega) f2 g2 (by omega) (by omega)]

theorem toChars_eq (n : Nat) :
    toChars n = if n < 10 then [digCh n]
      else toChars (n / 10) ++ [digCh (n % 10)] := by
  by_cases h : n < 10
  · simp [toChars, toCharsAux, h]
  · rw [if_neg h]
    have hstep : toCharsAux (n + 1) n =
        toCharsAux n (n / 10) ++ [digCh (n % 10)] := by
      simp only [toCharsAux, h, if_false]
    show toCharsAux (n + 1) n = toChars (n / 10) ++ [digCh (n % 10)]
    rw [hstep, toCharsAux_congr (n / 10) n (n / 10 + 1) (by omega) (by omega)]
    rfl

theorem toChars4 {n : Nat} (h1 : 1000 ≤ n) (h2 : n < 10000) :
    toChars n = [digCh (n / 1000), digCh (n / 100 % 10),
      digCh (n / 10 % 10), digCh (n % 10)] := by
  rw [toChars_eq, if_neg (by omega : ¬ n < 10)]
  rw [toChars_eq, if_neg (by omega : ¬ n / 10 < 10)]
  rw [toChars_eq, if_neg (by omega : ¬ n / 10 / 10 < 10)]
  rw [toChars_eq, if_pos (by omega : n / 10 / 10 / 10 < 10)]
  have e1 : n / 10 / 10 / 10 = n / 1000 := by omega
  have e2 : n / 10 / 10 % 10 = n / 100 % 10 := by omega
  rw [e1, e2]
  simp

theorem toChars_len4 {n : Nat} (h1 : 1000 ≤ n) (h2 : n < 10000) :
    (toChars n).length = 4 := by
  rw [toChars4 h1 h2]
  rfl

theorem digCh_lt_fin : ∀ d1 d2 : Fin 10, d1.val < d2.val →
    (digCh d1.val).toNat < (digCh d2.val).toNat := by decide

theorem digCh_lt {d1 d2 : Nat} (h1 : d1 < 10) (h2 : d2 < 10)
    (h : d1 < d2) : (digCh d1).toNat < (digCh d2).toNat :=
  digCh_lt_fin ⟨d1, h1⟩ ⟨d2, h2⟩ h

theorem lexLt_cons_lt {a b : Char} (h : a.toNat < b.toNat)
    (x y : List Char) : lexLt (a :: x) (b :: y) = true := by
  simp [lexLt, h]

theorem lexLt_cons_eq (a : Char) (x y : List Char) :
    lexLt (a :: x) (a :: y) = lexLt x y := by
  simp [lexLt]

theorem lexLt_toChars4 {a b : Nat} (t1 t2 : List Char)
    (h1 : 1000 ≤ a) (hab : a < b) (h2 : b < 10000) :
    lexLt (toChars a ++ t1) (toChars b ++ t2) = true := by
  rw [toChars4 h1 (by omega), toChars4 (by omega) h2]
  simp only [List.cons_append, List.nil_append]
  rcases Nat.lt_trichotomy (a / 1000) (b / 1000) with h | h | h
  · exact lexLt_cons_lt (digCh_lt (by omega) (by omega) h) _ _
  · rw [h, lexLt_cons_eq]
    rcases Nat.lt_trichotomy (a / 100 % 10) (b / 100 % 10) with h' | h' | h'
    · exact lexLt_cons_lt (digCh_lt (by omega) (by omega) h') _ _
    · rw [h', lexLt_cons_eq]
      rcases Nat.lt_trichotomy (a / 10 % 10) (b / 10 % 10) with h2' | h2' | h2'
      · exact lexLt_cons_lt (digCh_lt (by omega) (by omega) h2') _ _
      · rw [h2', lexLt_cons_eq]
        exact lexLt_cons_lt (digCh_lt (by omega) (by omega) (by omega)) _ _
      · exact absurd hab (by omega)
    · exact absurd hab (by omega)
  · exact absurd hab (by omega)

theorem strLt_mkLabel {s1 e1 s2 e2 : Nat} (h1 : 1000 ≤ s1) (hs : s1 < s2)
    (h2 : s2 < 10000) : strLt (mkLabel s1 e1) (mkLabel s2 e2) = true := by
  simp only [strLt, mkLabel]
  exact lexLt_toChars4 _ _ h1 hs h2

theorem pairwise_imp_mem {α : Type} {R S : α → α → Prop} :
    ∀ {l : List α}, (∀ x ∈ l, ∀ y ∈ l, R x y → S x y) →
    l.Pairwise R → l.Pairwise S := by
  intro l
  induction l with
  | nil => intro _ _; exact List.Pairwise.nil
  | cons a l ih =>
    intro h hp
    rcases List.pairwise_cons.mp hp with ⟨ha, hl⟩
    refine List.pairwise_cons.mpr ⟨?_, ?_⟩
    · intro x hx
      exact h a (List.mem_cons_self a l) x (List.mem_cons_of_mem a hx) (ha x hx)
    · exact ih (fun x hx y hy => h x (List.mem_cons_of_mem a hx) y
        (List.mem_cons_of_mem a hy)) hl

/-- Labels of any year-bins chain inside a four-digit-year window are
strictly ascending in the lexicographic string order. -/
theorem labels_pairwise {a b : Nat} {l : List Bin} (h : YChain a b l)
    (ha : 1000 ≤ a) (hb : b < 10000)
    (hlab : ∀ bin ∈ l, bin.label = mkLabel bin.start bin.stop) :
    List.Pairwise (fun x y => strLt x y = true)
      (l.map (fun bin => bin.label)) := by
  have hp := ychain_pairwise h
  have hbounds := ychain_bounds h
  rw [List.pairwise_map]
  refine pairwise_imp_mem ?_ hp
  intro x hx y hy hxy
  rw [hlab x hx, hlab y hy]
  have bx := hbounds x hx
  have hy' := hbounds y hy
  exact strLt_mkLabel (by omega) (by omega) (by omega)

theorem insertAsc_cons_of_lt {x y : String} (ys : List String)
    (h : strLt x y = true) : insertAsc x (y :: ys) = x :: y :: ys := by
  simp [insertAsc, h]

/-- Python `sorted` is the identity on an already strictly ascending
list. -/
theorem sortStr_eq_self : ∀ {l : List String},
    List.Chain' (fun a b => strLt a b = true) l → sortStr l = l := by
  intro l
  induction l with
  | nil => intro _; rfl
  | cons x xs ih =>
    intro h
    have hh := (List.chain'_cons'.mp h).1
    have hxs := (List.chain'_cons'.mp h).2
    simp only [sortStr]
    rw [ih hxs]
    cases xs with
    | nil => rfl
    | cons y ys => exact insertAsc_cons_of_lt ys (hh y rfl)

theorem binLoopCEYAux_label : ∀ f limit cur, ∀ bin ∈ binLoopCEYAux f limit cur,
    bin.label = mkLabel bin.start bin.stop := by
  intro f
  induction f with
  | zero => intro limit cur bin hb; simp [binLoopCEYAux] at hb
  | succ f ih =>
    intro limit cur bin hb
    by_cases h : cur ≤ limit
    · simp only [binLoopCEYAux, h, if_true] at hb
      rcases List.mem_cons.mp hb with hb | hb
      · subst hb; rfl
      · exact ih limit (cur + 50) bin hb
    · simp [binLoopCEYAux, h] at hb

theorem genBinsCEY_label (y : Nat) : ∀ bin ∈ genBinsCEY y,
    bin.label = mkLabel bin.start bin.stop := by
  intro bin hb
  rcases List.mem_cons.mp hb with hb | hb
  · subst hb; rfl
  · rcases List.mem_cons.mp hb with hb | hb
    · subst hb; rfl
    · exact binLoopCEYAux_label _ y 1800 bin hb

theorem binLoop5Aux_label : ∀ f limit interval cur,
    ∀ bin ∈ binLoop5Aux f limit interval cur,
    bin.label = mkLabel bin.start bin.stop := by
  intro f
  induction f with
  | zero => intro limit interval cur bin hb; simp [binLoop5Aux] at hb
  | succ f ih =>
    intro limit interval cur bin hb
    by_cases h : cur ≤ limit ∧ 1 ≤ interval
    · simp only [binLoop5Aux, h, if_true] at hb
      rcases List.mem_cons.mp hb with hb | hb
      · subst hb; rfl
      · exact ih limit interval (cur + interval) bin hb
    · simp [binLoop5Aux, h] at hb

/-! ## C10: label shape and lexicographic-chronological agreement -/

/-- C10: every label of the year-based partitioners has the form
`f"{start}-{stop}"` with two four-digit years and `start ≤ stop`, and the
labels — listed in the chronological generation order — are strictly
ascending in the lexicographic string order, so the plain string sort used
by the exporters (`sortStr`, modelling Python's `sorted`) returns them in
chronological order: sorting the labels as strings coincides with sorting
the bins chronologically. -/
theorem claim_C10 (y s i : Nat) (hy1 : 1800 ≤ y) (hy2 : y ≤ 9999)
    (hs1 : 1000 ≤ s) (hs2 : s ≤ y) (hi : 1 ≤ i) :
    (∀ bin ∈ genBinsCEY y, bin.label = mkLabel bin.start bin.stop ∧
      (toChars bin.start).length = 4 ∧ (toChars bin.stop).length = 4 ∧
      bin.start ≤ bin.stop) ∧
    List.Pairwise (fun u v => strLt u v = true)
      ((genBinsCEY y).map (fun b => b.label)) ∧
    sortStr ((genBinsCEY y).map (fun b => b.label)) =
      (genBinsCEY y).map (fun b => b.label) ∧
    (∀ bin ∈ genBins5 s i y, bin.label = mkLabel bin.start bin.stop ∧
      (toChars bin.start).length = 4 ∧ (toChars bin.stop).length = 4 ∧
      bin.start ≤ bin.stop) ∧
    List.Pairwise (fun u v => strLt u v = true)
      ((genBins5 s i y).map (fun b => b.label)) ∧
    sortStr ((genBins5 s i y).map (fun b => b.label)) =
      (genBins5 s i y).map (fun b => b.label) := by
  have hchainY := genBinsCEY_chain hy1
  have hboundsY := ychain_bounds hchainY
  have hlabY := genBinsCEY_label y
  have hpwY : List.Pairwise (fun u v => strLt u v = true)
      ((genBinsCEY y).map (fun b => b.label)) :=
    labels_pairwise hchainY (by omega) (by omega) hlabY
  have hchain5 := binLoop5_chain y i s hi hs2
  have hbounds5 := ychain_bounds hchain5
  have hlab5 : ∀ bin ∈ genBins5 s i y,
      bin.label = mkLabel bin.start bin.stop :=
    fun bin hb => binLoop5Aux_label _ y i s bin hb
  have hmap5 : ((genBins5 s i y).map
        (fun b => (⟨b.label, b.start, b.stop⟩ : Bin))).map
        (fun b => b.label) = (genBins5 s i y).map (fun b => b.label) := by
    rw [List.map_map]
    rfl
  have hlabmap5 : ∀ bin ∈ (genBins5 s i y).map
      (fun b => (⟨b.label, b.start, b.stop⟩ : Bin)),
      bin.label = mkLabel bin.start bin.stop := by
    intro bin hb
    rcases List.mem_map.mp hb with ⟨b5, hb5, rfl⟩
    exact hlab5 b5 hb5
  have hpw5 : List.Pairwise (fun u v => strLt u v = true)
      ((genBins5 s i y).map (fun b => b.label)) := by
    rw [← hmap5]
    exact labels_pairwise hchain5 (by omega) (by omega) hlabmap5
  refine ⟨?_, hpwY, sortStr_eq_self hpwY.chain', ?_, hpw5,
    sortStr_eq_self hpw5.chain'⟩
  · intro bin hb
    have hbd := hboundsY bin hb
    exact ⟨hlabY bin hb, toChars_len4 (by omega) (by omega),
      toChars_len4 (by omega) (by omega), by omega⟩
  · intro bin hb
    have hmem : (⟨bin.label, bin.start, bin.stop⟩ : Bin) ∈
        (genBins5 s i y).map (fun b => (⟨b.label, b.start, b.stop⟩ : Bin)) :=
      List.mem_map_of_mem _ hb
    have hbd : s ≤ bin.start ∧ bin.start ≤ bin.stop ∧ bin.stop ≤ y :=
      hbounds5 _ hmem
    exact ⟨hlab5 bin hb, toChars_len4 (by omega) (by omega),
      toChars_len4 (by omega) (by omega), by omega⟩

/-- C10 witness: the label properties at current year 2026 with the
configured example_5 parameters (start 1800, interval 50). -/
theorem claim_C10_witness :
    (∀ bin ∈ genBinsCEY 2026, bin.label = mkLabel bin.start bin.stop ∧
      (toChars bin.start).length = 4 ∧ (toChars bin.stop).length = 4 ∧
      bin.start ≤ bin.stop) ∧
    List.Pairwise (fun u v => strLt u v = true)
      ((genBinsCEY 2026).map (fun b => b.label)) ∧
    sortStr ((genBinsCEY 2026).map (fun b => b.label)) =
      (genBinsCEY 2026).map (fun b => b.label) ∧
    (∀ bin ∈ genBins5 1800 50 2026, bin.label = mkLabel bin.start bin.stop ∧
      (toChars bin.start).length = 4 ∧ (toChars bin.stop).length = 4 ∧
      bin.start ≤ bin.stop) ∧
    List.Pairwise (fun u v => strLt u v = true)
      ((genBins5 1800 50 2026).map (fun b => b.label)) ∧
    sortStr ((genBins5 1800 50 2026).map (fun b => b.label)) =
      (genBins5 1800 50 2026).map (fun b => b.label) :=
  claim_C10 2026 1800 50 (by decide) (by decide) (by decide) (by decide)
    (by decide)

/-! ## Pagination runs over well-formed chains -/

theorem sumLens_cons (p : Page) (rest : List Page) :
    sumLens (p :: rest) = p.features.length + sumLens rest := by
  simp [sumLens]

theorem codesOf_cons (p : Page) (rest : List Page) :
    codesOf (p :: rest) = pageCodes p ++ codesOf rest := by
  simp [codesOf]

theorem wfChain_cons {p q : Page} {rest : List Page}
    (h : wfChain (p :: q :: rest) = true) :
    (nextUrl p).isSome = true ∧ wfChain (q :: rest) = true := by
  simpa [wfChain, Bool.and_eq_true] using h

theorem wfChain_single {p : Page} (h : wfChain [p] = true) :
    nextUrl p = none := by
  simpa [wfChain, Option.isNone_iff_eq_none] using h

/-- A fully successful `count_items_manually` run over a well-formed chain
counts exactly the sum of the per-page `features` lengths. -/
theorem countItemsGo_ok (fails : Nat → Bool) :
    ∀ pages r acc, wfChain pages = true →
    (∀ j, j < pages.length → fails (r + j) = false) →
    countItemsGo fails pages r acc = .ok (acc + sumLens pages) := by
  intro pages
  induction pages with
  | nil => intro r acc hwf _; simp [wfChain] at hwf
  | cons p rest ih =>
    intro r acc hwf hnf
    have hf0 : fails r = false := by
      have h0 := hnf 0 (by simp)
      simpa using h0
    cases rest with
    | nil =>
      have hn : nextUrl p = none := wfChain_single hwf
      simp [countItemsGo, hf0, hn, sumLens]
    | cons q ws =>
      obtain ⟨hs, hwf2⟩ := wfChain_cons hwf
      obtain ⟨u, hu⟩ := Option.isSome_iff_exists.mp hs
      have hrec := ih (r + 1) (acc + p.features.length) hwf2
        (fun j hj => by
          have hx := hnf (j + 1) (by simp only [List.length_cons] at hj ⊢; omega)
          have he : r + (j + 1) = r + 1 + j := by omega
          rw [he] at hx
          exact hx)
      have hsum : acc + p.features.length + sumLens (q :: ws) =
          acc + sumLens (p :: q :: ws) := by
        rw [sumLens_cons p]
        omega
      have hstep : countItemsGo fails (p :: q :: ws) r acc =
          countItemsGo fails (q :: ws) (r + 1) (acc + p.features.length) := by
        simp only [countItemsGo, hf0, Bool.false_eq_true, if_false, hu]
      rw [hstep, hrec, hsum]

/-- A `fetch_time_chunk` run over a well-formed chain in which no request
exhausts the retry budget tallies every page, counts exactly the sum of
page lengths, and writes no error entry. -/
theorem ftcGo_ok (cid lbl : String) (failures : Nat → Nat) :
    ∀ pages pc acc, wfChain pages = true →
    (∀ j, j < pages.length → failures (pc + j) < maxRetries) →
    ∃ ds, fetchTimeChunkGo cid lbl failures pages pc acc =
      ⟨acc.tallies ++ codesOf pages, acc.items + sumLens pages,
        acc.errors, acc.delays ++ ds⟩ := by
  intro pages
  induction pages with
  | nil => intro pc acc hwf _; simp [wfChain] at hwf
  | cons p rest ih =>
    intro pc acc hwf hnf
    have hf0 : ¬ maxRetries ≤ failures pc := by
      have h0 := hnf 0 (by simp)
      simp only [Nat.add_zero] at h0
      omega
    cases rest with
    | nil =>
      have hn : nextUrl p = none := wfChain_single hwf
      refine ⟨[backoffDelays (failures pc)], ?_⟩
      simp [fetchTimeChunkGo, hf0, hn, sumLens, codesOf, pageCodes]
    | cons q ws =>
      obtain ⟨hs, hwf2⟩ := wfChain_cons hwf
      obtain ⟨u, hu⟩ := Option.isSome_iff_exists.mp hs
      obtain ⟨ds, hds⟩ := ih (pc + 1)
        ⟨acc.tallies ++ pageCodes p, acc.items + p.features.length,
          acc.errors, acc.delays ++ [backoffDelays (failures pc)]⟩ hwf2
        (fun j hj => by
          have hx := hnf (j + 1) (by simp only [List.length_cons] at hj ⊢; omega)
          have he : pc + (j + 1) = pc + 1 + j := by omega
          rw [he] at hx
          exact hx)
      have hstep : fetchTimeChunkGo cid lbl failures (p :: q :: ws) pc acc =
          fetchTimeChunkGo cid lbl failures (q :: ws) (pc + 1)
            ⟨acc.tallies ++ pageCodes p, acc.items + p.features.length,
              acc.errors, acc.delays ++ [backoffDelays (failures pc)]⟩ := by
        simp only [fetchTimeChunkGo, hf0, if_false, hu]
      refine ⟨[backoffDelays (failures pc)] ++ ds, ?_⟩
      rw [hstep, hds]
      congr 1
      · simp [codesOf_cons, List.append_assoc]
      · show acc.items + p.features.length + sumLens (q :: ws) =
            acc.items + sumLens (p :: q :: ws)
        simp only [sumLens, List.map_cons, List.sum_cons]
        omega
      · simp [List.append_assoc]

/-- A `fetch_time_chunk` run that reaches a page whose request fails
`max_retries` times returns the counter and item count accumulated from
the pages before it, together with exactly one error entry naming that
page. -/
theorem ftcGo_exhaust (cid lbl : String) (failures : Nat → Nat) :
    ∀ pre p rest pc acc,
    (∀ j, j < pre.length → failures (pc + j) < maxRetries) →
    (∀ q ∈ pre, (nextUrl q).isSome = true) →
    maxRetries ≤ failures (pc + pre.length) →
    ∃ ds, fetchTimeChunkGo cid lbl failures (pre ++ p :: rest) pc acc =
      ⟨acc.tallies ++ codesOf pre, acc.items + sumLens pre,
        acc.errors ++ [⟨cid, lbl, pc + pre.length, failReason⟩],
        acc.delays ++ ds⟩ := by
  intro pre
  induction pre with
  | nil =>
    intro p rest pc acc _ _ hfail
    have hf : maxRetries ≤ failures pc := by simpa using hfail
    refine ⟨[backoffDelays maxRetries], ?_⟩
    simp [fetchTimeChunkGo, hf, codesOf, sumLens]
  | cons q pre ih =>
    intro p rest pc acc hnf hnx hfail
    have hf0 : ¬ maxRetries ≤ failures pc := by
      have h0 := hnf 0 (by simp)
      simp only [Nat.add_zero] at h0
      omega
    obtain ⟨u, hu⟩ := Option.isSome_iff_exists.mp
      (hnx q (List.mem_cons_self q pre))
    obtain ⟨ds, hds⟩ := ih p rest (pc + 1)
      ⟨acc.tallies ++ pageCodes q, acc.items + q.features.length,
        acc.errors, acc.delays ++ [backoffDelays (failures pc)]⟩
      (fun j hj => by
        have hx := hnf (j + 1) (by simp only [List.length_cons] at hj ⊢; omega)
        have he : pc + (j + 1) = pc + 1 + j := by omega
        rw [he] at hx
        exact hx)
      (fun w hw => hnx w (List.mem_cons_of_mem q hw))
      (by
        have he : pc + (q :: pre).length = pc + 1 + pre.length := by
          simp only [List.length_cons]; omega
        rw [he] at hfail
        exact hfail)
    have hstep : fetchTimeChunkGo cid lbl failures ((q :: pre) ++ p :: rest)
          pc acc =
        fetchTimeChunkGo cid lbl failures (pre ++ p :: rest) (pc + 1)
          ⟨acc.tallies ++ pageCodes q, acc.items + q.features.length,
            acc.errors, acc.delays ++ [backoffDelays (failures pc)]⟩ := by
      simp only [List.cons_append, fetchTimeChunkGo, hf0, if_false, hu]
      rfl
    refine ⟨[backoffDelays (failures pc)] ++ ds, ?_⟩
    rw [hstep, hds]
    congr 1
    · simp [codesOf_cons, List.append_assoc]
    · show acc.items + q.features.length + sumLens pre =
          acc.items + sumLens (q :: pre)
      simp only [sumLens, List.map_cons, List.sum_cons]
      omega
    · show acc.errors ++ [⟨cid, lbl, pc + 1 + pre.length, failReason⟩] =
          acc.errors ++ [⟨cid, lbl, pc + (q :: pre).length, failReason⟩]
      have he : pc + 1 + pre.length = pc + (q :: pre).length := by
        simp only [List.length_cons]
        omega
      rw [he]
    · simp [List.append_assoc]

/-- Every sleep block of a `fetch_time_chunk` run is a doubling backoff
sequence of at most `max_retries` sleeps. -/
theorem ftcGo_delays (cid lbl : String) (failures : Nat → Nat) :
    ∀ pages pc acc,
    (∀ d ∈ acc.delays, ∃ k, k ≤ maxRetries ∧ d = backoffDelays k) →
    ∀ d ∈ (fetchTimeChunkGo cid lbl failures pages pc acc).delays,
    ∃ k, k ≤ maxRetries ∧ d = backoffDelays k := by
  intro pages
  induction pages with
  | nil => intro pc acc hacc; exact hacc
  | cons p rest ih =>
    intro pc acc hacc
    by_cases hf : maxRetries ≤ failures pc
    · simp only [fetchTimeChunkGo, hf, if_true]
      intro d hd
      rcases List.mem_append.mp hd with hd | hd
      · exact hacc d hd
      · simp only [List.mem_singleton] at hd
        exact ⟨maxRetries, Nat.le_refl _, hd⟩
    · have hacc2 : ∀ d ∈ (acc.delays ++ [backoffDelays (failures pc)]),
          ∃ k, k ≤ maxRetries ∧ d = backoffDelays k := by
        intro d hd
        rcases List.mem_append.mp hd with hd | hd
        · exact hacc d hd
        · simp only [List.mem_singleton] at hd
          exact ⟨failures pc, by omega, hd⟩
      simp only [fetchTimeChunkGo, hf, if_false]
      cases hn : nextUrl p with
      | none => exact hacc2
      | some u => exact ih (pc + 1) _ hacc2

/-- Each backoff block doubles: the sleeps are `2 ^ attempt` seconds,
so every sleep is twice the previous one. -/
theorem backoffDelays_chain (k : Nat) :
    List.Chain' (fun a b => b = 2 * a) (backoffDelays k) := by
  unfold backoffDelays
  rw [List.chain'_map]
  cases k with
  | zero => exact List.chain'_nil
  | succ k =>
    rw [List.chain'_range_succ]
    intro m _
    rw [pow_succ]
    ring

/-- A fully successful `fetch_counts_for_bin` run over a well-formed chain
(whose first page is non-empty, avoiding the early empty return) tallies
every page and counts the sum of page lengths. -/
theorem fcbGo_ok (cid lbl : String) (fails : Nat → Bool) :
    ∀ pages r acc items, wfChain pages = true →
    (∀ j, j < pages.length → fails (r + j) = false) →
    firstOk items pages = true →
    fetchCountsGo cid lbl fails pages r acc items =
      ⟨cid, lbl, acc ++ codesOf pages, items + sumLens pages, []⟩ := by
  intro pages
  induction pages with
  | nil => intro r acc items hwf _ _; simp [wfChain] at hwf
  | cons p rest ih =>
    intro r acc items hwf hnf hfo
    have hf0 : fails r = false := by
      have h0 := hnf 0 (by simp)
      simpa using h0
    simp only [firstOk, Bool.or_eq_true, decide_eq_true_eq,
      Bool.not_eq_true'] at hfo
    have hlen : 0 < items ∨ 0 < p.features.length := by
      rcases hfo with h | h
      · exact Or.inl h
      · refine Or.inr (List.length_pos.mpr ?_)
        simpa [List.isEmpty_iff] using h
    have hne : ¬ (p.features.isEmpty && decide (items = 0)) = true := by
      simp only [Bool.and_eq_true, decide_eq_true_eq, not_and]
      intro hemp
      rcases hlen with h | h
      · omega
      · rw [List.isEmpty_iff] at hemp
        rw [hemp] at h
        simp at h
    cases rest with
    | nil =>
      have hn : nextUrl p = none := wfChain_single hwf
      simp [fetchCountsGo, hf0, hne, hn, codesOf, pageCodes, sumLens]
    | cons q ws =>
      obtain ⟨hs, hwf2⟩ := wfChain_cons hwf
      obtain ⟨u, hu⟩ := Option.isSome_iff_exists.mp hs
      have hfo2 : firstOk (items + p.features.length) (q :: ws) = true := by
        simp only [firstOk, Bool.or_eq_true, decide_eq_true_eq]
        left
        omega
      have hrec := ih (r + 1) (acc ++ pageCodes p)
        (items + p.features.length) hwf2
        (fun j hj => by
          have hx := hnf (j + 1) (by simp only [List.length_cons] at hj ⊢; omega)
          have he : r + (j + 1) = r + 1 + j := by omega
          rw [he] at hx
          exact hx) hfo2
      have hstep : fetchCountsGo cid lbl fails (p :: q :: ws) r acc items =
          fetchCountsGo cid lbl fails (q :: ws) (r + 1) (acc ++ pageCodes p)
            (items + p.features.length) := by
        simp only [fetchCountsGo, hf0, Bool.false_eq_true, if_false, hne, hu]
      rw [hstep, hrec]
      congr 1
      · simp [codesOf_cons, List.append_assoc]
      · simp only [sumLens, List.map_cons, List.sum_cons]
        omega

/-- A `fetch_counts_for_bin` run whose request for the page after `pre`
fails returns an empty counter — discarding everything tallied from the
`pre` pages, whose items were nevertheless fetched — and writes no error
entry. -/
theorem fcbGo_fail (cid lbl : String) (fails : Nat → Bool) :
    ∀ pre p rest r acc items,
    (∀ j, j < pre.length → fails (r + j) = false) →
    (∀ q ∈ pre, (nextUrl q).isSome = true) →
    firstOk items pre = true →
    fails (r + pre.length) = true →
    fetchCountsGo cid lbl fails (pre ++ p :: rest) r acc items =
      ⟨cid, lbl, [], items + sumLens pre, []⟩ := by
  intro pre
  induction pre with
  | nil =>
    intro p rest r acc items _ _ _ hfail
    have hf : fails r = true := by simpa using hfail
    simp [fetchCountsGo, hf, sumLens]
  | cons q pre ih =>
    intro p rest r acc items hnf hnx hfo hfail
    have hf0 : fails r = false := by
      have h0 := hnf 0 (by simp)
      simpa using h0
    simp only [firstOk, Bool.or_eq_true, decide_eq_true_eq,
      Bool.not_eq_true'] at hfo
    have hlen : 0 < items ∨ 0 < q.features.length := by
      rcases hfo with h | h
      · exact Or.inl h
      · refine Or.inr (List.length_pos.mpr ?_)
        simpa [List.isEmpty_iff] using h
    have hne : ¬ (q.features.isEmpty && decide (items = 0)) = true := by
      simp only [Bool.and_eq_true, decide_eq_true_eq, not_and]
      intro hemp
      rcases hlen with h | h
      · omega
      · rw [List.isEmpty_iff] at hemp
        rw [hemp] at h
        simp at h
    obtain ⟨u, hu⟩ := Option.isSome_iff_exists.mp
      (hnx q (List.mem_cons_self q pre))
    have hfo2 : firstOk (items + q.features.length) pre = true := by
      cases pre with
      | nil => rfl
      | cons w ws =>
        simp only [firstOk, Bool.or_eq_true, decide_eq_true_eq]
        left
        omega
    have hrec := ih p rest (r + 1) (acc ++ pageCodes q)
      (items + q.features.length)
      (fun j hj => by
        have hx := hnf (j + 1) (by simp only [List.length_cons] at hj ⊢; omega)
        have he : r + (j + 1) = r + 1 + j := by omega
        rw [he] at hx
        exact hx)
      (fun w hw => hnx w (List.mem_cons_of_mem q hw)) hfo2
      (by
        have he : r + (q :: pre).length = r + 1 + pre.length := by
          simp only [List.length_cons]
          omega
        rw [he] at hfail
        exact hfail)
    have hstep : fetchCountsGo cid lbl fails ((q :: pre) ++ p :: rest) r
          acc items =
        fetchCountsGo cid lbl fails (pre ++ p :: rest) (r + 1)
          (acc ++ pageCodes q) (items + q.features.length) := by
      simp only [List.cons_append, fetchCountsGo, hf0, Bool.false_eq_true,
        if_false, hne, hu]
      rfl
    rw [hstep, hrec]
    congr 1
    simp only [sumLens, List.map_cons, List.sum_cons]
    omega

/-! ## C2: retry, backoff and error records of the paginated fetchers -/

/-- C2 counterexample: in `fetch_time_chunk`, a task whose first page
succeeds (tallying one code) and whose second page fails all three
attempts writes exactly one error record but contributes the non-empty
partial counter accumulated before the failure — not an empty result as
the claim states. -/
theorem claim_C2_counterexample :
    (fetchTimeChunk "usgs-events" "1934-1939"
        (fun pc => if pc = 2 then 3 else 0)
        [⟨[["US"]], [⟨"next", "u2"⟩]⟩, ⟨[["CA"]], []⟩]).errors.length = 1 ∧
    (fetchTimeChunk "usgs-events" "1934-1939"
        (fun pc => if pc = 2 then 3 else 0)
        [⟨[["US"]], [⟨"next", "u2"⟩]⟩, ⟨[["CA"]], []⟩]).tallies = ["US"] ∧
    ["US"] ≠ ([] : List String) := by
  refine ⟨rfl, rfl, by decide⟩

/-- C2 amended: in `fetch_time_chunk` (example_3_optimized) a failed page
request is retried up to `max_retries = 3` attempts, sleeping `2^attempt`
seconds (each sleep double the previous); a task whose request fails all
three attempts writes exactly one Error Record (collection, time chunk,
page, reason) and returns, without raising, the partial counter and item
count accumulated from the pages before the failure (empty only when the
first page failed).  `fetch_counts_for_bin` (example_5), by contrast, has
no retry and no error log: a failed request makes it return an empty
counter and no error record is written. -/
theorem claim_C2_amended :
    (∀ cid lbl failures pages d,
      d ∈ (fetchTimeChunk cid lbl failures pages).delays →
      ∃ k, k ≤ maxRetries ∧ d = backoffDelays k ∧
        List.Chain' (fun a b => b = 2 * a) d) ∧
    (∀ cid lbl failures pre p rest,
      (∀ j, j < pre.length → failures (1 + j) < maxRetries) →
      (∀ q ∈ pre, (nextUrl q).isSome = true) →
      maxRetries ≤ failures (1 + pre.length) →
      (fetchTimeChunk cid lbl failures (pre ++ p :: rest)).errors =
        [⟨cid, lbl, 1 + pre.length, failReason⟩] ∧
      (fetchTimeChunk cid lbl failures (pre ++ p :: rest)).tallies =
        codesOf pre ∧
      (fetchTimeChunk cid lbl failures (pre ++ p :: rest)).items =
        sumLens pre) ∧
    (∀ cid lbl fails pre p rest,
      (∀ j, j < pre.length → fails j = false) →
      (∀ q ∈ pre, (nextUrl q).isSome = true) →
      firstOk 0 pre = true →
      fails pre.length = true →
      (fetchCountsForBin cid lbl fails (pre ++ p :: rest)).tallies = [] ∧
      (fetchCountsForBin cid lbl fails (pre ++ p :: rest)).errors = []) := by
  refine ⟨?_, ?_, ?_⟩
  · intro cid lbl failures pages d hd
    obtain ⟨k, hk, hdk⟩ := ftcGo_delays cid lbl failures pages 1 ⟨[], 0, [], []⟩
      (by intro d hd'; simp at hd') d hd
    exact ⟨k, hk, hdk, hdk ▸ backoffDelays_chain k⟩
  · intro cid lbl failures pre p rest hnf hnx hfail
    obtain ⟨ds, hds⟩ := ftcGo_exhaust cid lbl failures pre p rest 1
      ⟨[], 0, [], []⟩ (fun j hj => hnf j hj) hnx hfail
    unfold fetchTimeChunk
    rw [hds]
    exact ⟨by simp, by simp, by simp⟩
  · intro cid lbl fails pre p rest hnf hnx hfo hfail
    have h := fcbGo_fail cid lbl fails pre p rest 0 [] 0
      (fun j hj => by simpa using hnf j hj) hnx hfo (by simpa using hfail)
    unfold fetchCountsForBin
    rw [h]
    exact ⟨rfl, rfl⟩

/-- C2 amended witness: the first-page-succeeds, second-page-exhausts task
of the counterexample, run through the amended statement. -/
theorem claim_C2_amended_witness :
    (fetchTimeChunk "usgs-events" "1934-1939"
        (fun pc => if pc = 2 then 3 else 0)
        ([⟨[["US"]], [⟨"next", "u2"⟩]⟩] ++ ⟨[["CA"]], []⟩ :: [])).errors =
      [⟨"usgs-events", "1934-1939", 2, failReason⟩] ∧
    (fetchTimeChunk "usgs-events" "1934-1939"
        (fun pc => if pc = 2 then 3 else 0)
        ([⟨[["US"]], [⟨"next", "u2"⟩]⟩] ++ ⟨[["CA"]], []⟩ :: [])).tallies =
      codesOf [⟨[["US"]], [⟨"next", "u2"⟩]⟩] ∧
    (fetchTimeChunk "usgs-events" "1934-1939"
        (fun pc => if pc = 2 then 3 else 0)
        ([⟨[["US"]], [⟨"next", "u2"⟩]⟩] ++ ⟨[["CA"]], []⟩ :: [])).items =
      sumLens [⟨[["US"]], [⟨"next", "u2"⟩]⟩] :=
  claim_C2_amended.2.1 "usgs-events" "1934-1939"
    (fun pc => if pc = 2 then 3 else 0)
    [⟨[["US"]], [⟨"next", "u2"⟩]⟩] ⟨[["CA"]], []⟩ []
    (fun j hj => by
      have : j = 0 := by simpa using hj
      subst this
      decide)
    (fun q hq => by
      have : q = ⟨[["US"]], [⟨"next", "u2"⟩]⟩ := by simpa using hq
      subst this
      decide)
    (by decide)

/-! ## C4: pagination termination and item totals -/

/-- C4 counterexample: a well-formed two-page chain whose first page has an
empty `features` array but a "next" link.  `fetch_counts_for_bin` takes the
early empty-first-page return and never follows the link, so the total
items counted is 0 while the sum of the per-page feature counts is 1. -/
theorem claim_C4_counterexample :
    wfChain [⟨[], [⟨"next", "u2"⟩]⟩, ⟨[["XX"]], []⟩] = true ∧
    (fetchCountsForBin "gidd-events" "1800-1849" (fun _ => false)
        [⟨[], [⟨"next", "u2"⟩]⟩, ⟨[["XX"]], []⟩]).items = 0 ∧
    (fetchCountsForBin "gidd-events" "1800-1849" (fun _ => false)
        [⟨[], [⟨"next", "u2"⟩]⟩, ⟨[["XX"]], []⟩]).tallies = [] ∧
    sumLens [⟨[], [⟨"next", "u2"⟩]⟩, ⟨[["XX"]], []⟩] = 1 := by
  refine ⟨by decide, rfl, rfl, by decide⟩

/-- C4 amended: over every finite well-formed page chain (each non-final
page has exactly the first "next" link followed, the final page has none)
with no request failures, each pagination loop terminates (the model
functions are total) and the items counted equal the sum over all pages of
the `features` length — for `count_items_manually` and `fetch_time_chunk`
unconditionally, and for `fetch_counts_for_bin` provided the first page is
non-empty (an empty first page triggers its early return, which stops
before following the first "next" link). -/
theorem claim_C4_amended :
    (∀ fails pages, wfChain pages = true →
      (∀ j, j < pages.length → fails j = false) →
      countItemsManually fails pages = .ok (sumLens pages)) ∧
    (∀ cid lbl failures pages, wfChain pages = true →
      (∀ j, j < pages.length → failures (1 + j) < maxRetries) →
      (fetchTimeChunk cid lbl failures pages).items = sumLens pages ∧
      (fetchTimeChunk cid lbl failures pages).tallies = codesOf pages ∧
      (fetchTimeChunk cid lbl failures pages).errors = []) ∧
    (∀ cid lbl fails pages, wfChain pages = true →
      (∀ j, j < pages.length → fails j = false) →
      firstOk 0 pages = true →
      (fetchCountsForBin cid lbl fails pages).items = sumLens pages ∧
      (fetchCountsForBin cid lbl fails pages).tallies = codesOf pages) := by
  refine ⟨?_, ?_, ?_⟩
  · intro fails pages hwf hnf
    have h := countItemsGo_ok fails pages 0 0 hwf
      (fun j hj => by simpa using hnf j hj)
    unfold countItemsManually
    rw [h, Nat.zero_add]
  · intro cid lbl failures pages hwf hnf
    obtain ⟨ds, hds⟩ := ftcGo_ok cid lbl failures pages 1 ⟨[], 0, [], []⟩
      hwf (fun j hj => hnf j hj)
    unfold fetchTimeChunk
    rw [hds]
    exact ⟨by simp, by simp, by simp⟩
  · intro cid lbl fails pages hwf hnf hfo
    have h := fcbGo_ok cid lbl fails pages 0 [] 0 hwf
      (fun j hj => by simpa using hnf j hj) hfo
    unfold fetchCountsForBin
    rw [h]
    exact ⟨by simp, by simp⟩

/-- C4 amended witness: a concrete two-page chain with three items. -/
theorem claim_C4_amended_witness :
    countItemsManually (fun _ => false)
      [⟨[["A"], ["B"]], [⟨"next", "u2"⟩]⟩, ⟨[["C"]], []⟩] =
      .ok (sumLens [⟨[["A"], ["B"]], [⟨"next", "u2"⟩]⟩, ⟨[["C"]], []⟩]) :=
  claim_C4_amended.1 (fun _ => false)
    [⟨[["A"], ["B"]], [⟨"next", "u2"⟩]⟩, ⟨[["C"]], []⟩]
    (by decide) (fun j hj => rfl)

/-! ## C9: example_5 task atomicity on failure -/

/-- C9: in `example_5.fetch_counts_for_bin`, a request error on any page —
here the page following the successfully fetched prefix `pre`, whose items
were already fetched and tallied — makes the task return an empty counter
for the bin, discarding everything accumulated from the earlier pages
(the contribution is all-pages-or-nothing), and no error record is written
on any path (the function has no error log). -/
theorem claim_C9 (cid lbl : String) (fails : Nat → Bool) (pre : List Page)
    (p : Page) (rest : List Page)
    (hnf : ∀ j, j < pre.length → fails j = false)
    (hnx : ∀ q ∈ pre, (nextUrl q).isSome = true)
    (hfo : firstOk 0 pre = true)
    (hfail : fails pre.length = true) :
    (fetchCountsForBin cid lbl fails (pre ++ p :: rest)).tallies = [] ∧
    (fetchCountsForBin cid lbl fails (pre ++ p :: rest)).items =
      sumLens pre ∧
    (fetchCountsForBin cid lbl fails (pre ++ p :: rest)).errors = [] ∧
    (fetchCountsForBin cid lbl fails (pre ++ p :: rest)).collection = cid ∧
    (fetchCountsForBin cid lbl fails (pre ++ p :: rest)).period = lbl := by
  have h := fcbGo_fail cid lbl fails pre p rest 0 [] 0
    (fun j hj => by simpa using hnf j hj) hnx hfo (by simpa using hfail)
  unfold fetchCountsForBin
  rw [h]
  exact ⟨rfl, by simp, rfl, rfl, rfl⟩

/-- C9 witness: one successful non-empty page (two codes tallied), then a
failing second request: the returned counter is empty although two items
were fetched, and no error entry exists. -/
theorem claim_C9_witness :
    (fetchCountsForBin "gidd-events" "1950-1999" (fun r => decide (r = 1))
      ([⟨[["FL"], ["EQ"]], [⟨"next", "u2"⟩]⟩] ++ ⟨[["XX"]], []⟩ :: [])).tallies
      = [] ∧
    (fetchCountsForBin "gidd-events" "1950-1999" (fun r => decide (r = 1))
      ([⟨[["FL"], ["EQ"]], [⟨"next", "u2"⟩]⟩] ++ ⟨[["XX"]], []⟩ :: [])).items
      = sumLens [⟨[["FL"], ["EQ"]], [⟨"next", "u2"⟩]⟩] ∧
    (fetchCountsForBin "gidd-events" "1950-1999" (fun r => decide (r = 1))
      ([⟨[["FL"], ["EQ"]], [⟨"next", "u2"⟩]⟩] ++ ⟨[["XX"]], []⟩ :: [])).errors
      = [] ∧
    (fetchCountsForBin "gidd-events" "1950-1999" (fun r => decide (r = 1))
      ([⟨[["FL"], ["EQ"]], [⟨"next", "u2"⟩]⟩] ++
        ⟨[["XX"]], []⟩ :: [])).collection = "gidd-events" ∧
    (fetchCountsForBin "gidd-events" "1950-1999" (fun r => decide (r = 1))
      ([⟨[["FL"], ["EQ"]], [⟨"next", "u2"⟩]⟩] ++ ⟨[["XX"]], []⟩ :: [])).period
      = "1950-1999" :=
  claim_C9 "gidd-events" "1950-1999" (fun r => decide (r = 1))
    [⟨[["FL"], ["EQ"]], [⟨"next", "u2"⟩]⟩] ⟨[["XX"]], []⟩ []
    (fun j hj => by
      have : j = 0 := by simpa using hj
      subst this
      decide)
    (fun q hq => by
      have : q = ⟨[["FL"], ["EQ"]], [⟨"next", "u2"⟩]⟩ := by simpa using hq
      subst this
      decide)
    (by decide) (by decide)

/-! ## Membership in the sorted-unique column lists -/

theorem mem_dedupFirst {x : String} : ∀ {l : List String},
    x ∈ dedupFirst l ↔ x ∈ l := by
  intro l
  induction l with
  | nil => simp [dedupFirst]
  | cons y ys ih =>
    simp only [dedupFirst, List.mem_cons, List.mem_filter, ih,
      decide_eq_true_eq]
    by_cases hxy : x = y
    · simp [hxy]
    · simp [hxy]

theorem mem_insertAsc {x a : String} : ∀ {l : List String},
    x ∈ insertAsc a l ↔ x = a ∨ x ∈ l := by
  intro l
  induction l with
  | nil => simp [insertAsc]
  | cons y ys ih =>
    simp only [insertAsc]
    by_cases h : strLt a y = true
    · simp [h, List.mem_cons]
    · rw [if_neg h]
      simp only [List.mem_cons, ih]
      tauto

theorem mem_sortStr {x : String} : ∀ {l : List String},
    x ∈ sortStr l ↔ x ∈ l := by
  intro l
  induction l with
  | nil => simp [sortStr]
  | cons y ys ih =>
    simp only [sortStr, mem_insertAsc, ih, List.mem_cons]

theorem mem_sortedUnique {x : String} {l : List String} :
    x ∈ sortedUnique l ↔ x ∈ l := by
  simp [sortedUnique, mem_sortStr, mem_dedupFirst]

/-! ## Pivot cells and exported sheets (towards C3) -/

theorem cellVal5_eq_zero {rc : List RRec} {cat per : String}
    (h : ∀ r ∈ rc, ¬(r.category = cat ∧ r.period = per)) :
    cellVal5 rc cat per = 0 := by
  unfold cellVal5
  have hnil : rc.filter (fun r => r.category == cat && r.period == per)
      = [] := by
    rw [List.filter_eq_nil_iff]
    intro r hr
    simp only [Bool.and_eq_true, beq_iff_eq, not_and]
    intro h1 h2
    exact h r hr ⟨h1, h2⟩
  rw [hnil]
  rfl

theorem cellValY_eq_zero {rc : List CountRecord} {per : String}
    (h : ∀ r ∈ rc, r.period ≠ per) :
    cellValY rc per = 0 := by
  unfold cellValY
  have hnil : rc.filter (fun r => r.period == per) = [] := by
    rw [List.filter_eq_nil_iff]
    intro r hr
    simp only [beq_iff_eq]
    exact h r hr
  rw [hnil]
  rfl

/-- The `reindex` guard never leaves a gap: every cell of an exported
example_5 sheet is the aggregated count of its (category, period) key —
which is 0 when the collection has no matching record. -/
theorem sheetFor5_cells (rs : List RRec) (c : String) :
    (sheetFor5 rs c (sortedUnique (rs.map (fun r => r.period)))).cells =
      (sheetFor5 rs c (sortedUnique (rs.map (fun r => r.period)))).rowsIdx.map
        (fun cat => (sortedUnique (rs.map (fun r => r.period))).map
          (fun per => cellVal5 (rs.filter (fun r => r.collection == c))
            cat per)) := by
  unfold sheetFor5
  simp only
  apply List.map_congr_left
  intro cat _
  apply List.map_congr_left
  intro per _
  by_cases hc : per ∈ sortedUnique
      ((rs.filter (fun r => r.collection == c)).map (fun r => r.period))
  · rw [if_pos hc]
  · rw [if_neg hc]
    refine (cellVal5_eq_zero ?_).symm
    intro r hr habs
    apply hc
    rw [mem_sortedUnique]
    exact List.mem_map.mpr ⟨r, hr, habs.2⟩

/-- Same for `count_events_by_year` sheets (a single data row). -/
theorem sheetForY_cells (kept : List CountRecord) (c : String)
    (allP : List String) :
    (sheetForY kept c allP).cells =
      allP.map (fun per =>
        cellValY (kept.filter (fun r => r.collection == c)) per) := by
  unfold sheetForY
  simp only
  apply List.map_congr_left
  intro per _
  by_cases hc : per ∈ sortedUnique
      ((kept.filter (fun r => r.collection == c)).map (fun r => r.period))
  · rw [if_pos hc]
  · rw [if_neg hc]
    refine (cellValY_eq_zero ?_).symm
    intro r hr habs
    apply hc
    rw [mem_sortedUnique]
    exact List.mem_map.mpr ⟨r, hr, habs⟩

/-! ## C3: pivoted output tables -/

/-- C3 counterexample: with current year 1899 the canonical bin set of
example_5 is 1800-1849 and 1850-1899, and in a run where every task for
1800-1849 returns an empty counter (no observed data for that period) the
pivoted output has no 1800-1849 column at all — the period is an absent
column in every sheet, not an explicit zero column as the claim states. -/
theorem claim_C3_counterexample :
    "1800-1849" ∈ (genBins5 1800 50 1899).map (fun b => b.label) ∧
    aggregate5 [⟨"A", "1800-1849", [], 0, []⟩,
        ⟨"A", "1850-1899", ["FL", "FL"], 2, []⟩] =
      [⟨"A", "1850-1899", "FL", 2⟩] ∧
    (∀ sh ∈ export5 (aggregate5 [⟨"A", "1800-1849", [], 0, []⟩,
        ⟨"A", "1850-1899", ["FL", "FL"], 2, []⟩]),
      sh.cols = ["1850-1899"] ∧ "1800-1849" ∉ sh.cols) := by
  refine ⟨by decide, by decide, by decide⟩

/-- C3 amended: in every exported sheet, the column list is exactly the
sorted list of the periods observed in the Result Records (so the column
order is canonical, but a period observed in no record at all is absent,
not zero-filled), and every (row category, column period) cell is present
and equals the aggregated count of its key, which is zero whenever the
sheet's collection has no matching record — so a (category, period)
combination missing from the records of a collection shows as an explicit
zero as long as some record mentions the period.  In
`count_events_by_year`, zero counts are stored as ordinary records, so a
collection whose counts are all zero still gets its sheet. -/
theorem claim_C3_amended :
    (∀ rs : List RRec, ∀ sh ∈ export5 rs,
      sh.cols = sortedUnique (rs.map (fun r => r.period)) ∧
      sh.cells = sh.rowsIdx.map (fun cat => sh.cols.map
        (fun per => cellVal5 (rs.filter (fun r => r.collection == sh.name))
          cat per))) ∧
    (∀ (rc : List RRec) (cat per : String),
      (∀ r ∈ rc, ¬(r.category = cat ∧ r.period = per)) →
      cellVal5 rc cat per = 0) ∧
    (∀ records : List CountRecord, ∀ sh ∈ exportByYear records,
      sh.cols = sortedUnique ((records.filter
        (fun r => decide (r.count ≠ CountVal.err))).map (fun r => r.period)) ∧
      sh.cells = sh.cols.map (fun per => cellValY ((records.filter
        (fun r => decide (r.count ≠ CountVal.err))).filter
          (fun r => r.collection == sh.name)) per)) ∧
    (∀ (records : List CountRecord) (c : String),
      (∃ r ∈ records, r.collection = c ∧ r.count ≠ CountVal.err) →
      c ∈ (exportByYear records).map (fun sh => sh.name)) := by
  refine ⟨?_, fun rc cat per h => cellVal5_eq_zero h, ?_, ?_⟩
  · intro rs sh hsh
    obtain ⟨c, _, rfl⟩ := List.mem_map.mp hsh
    exact ⟨rfl, sheetFor5_cells rs c⟩
  · intro records sh hsh
    obtain ⟨c, _, rfl⟩ := List.mem_map.mp hsh
    exact ⟨rfl, sheetForY_cells _ c _⟩
  · intro records c hex
    obtain ⟨r, hr, hrc, hne⟩ := hex
    unfold exportByYear
    simp only [List.map_map]
    have hshow : ((fun sh => sh.name) ∘
        (fun c2 => sheetForY (records.filter
          (fun r2 => decide (r2.count ≠ CountVal.err))) c2
          (sortedUnique ((records.filter
            (fun r2 => decide (r2.count ≠ CountVal.err))).map
              (fun r2 => r2.period))))) =
        fun c2 : String => c2 := rfl
    rw [hshow]
    simp only [List.map_id']
    rw [mem_sortedUnique]
    refine List.mem_map.mpr ⟨r, ?_, hrc⟩
    rw [List.mem_filter]
    exact ⟨hr, by simpa using hne⟩

/-- C3 amended witness: a single zero-count record still produces a sheet
named after its collection. -/
theorem claim_C3_amended_witness :
    "A" ∈ (exportByYear [⟨"A", "1800-1849", CountVal.num 0⟩]).map
      (fun sh => sh.name) :=
  claim_C3_amended.2.2.2 [⟨"A", "1800-1849", CountVal.num 0⟩] "A"
    ⟨⟨"A", "1800-1849", CountVal.num 0⟩, by decide, rfl, by decide⟩

/-! ## C5: count mode and the missing-numberMatched policy -/

/-- C5 counterexample: in `count_events_per_collection`'s
`fetch_collection_count`, a response body that omits `numberMatched`
(after a summary without `monty:count`) does not yield zero-with-warning:
the code falls back to a manual full pagination whose result here is 7. -/
theorem claim_C5_counterexample :
    fetchCollectionCount "gidd-events" (some ⟨none⟩) (some ⟨none, []⟩)
      (fun _ => false) [⟨[[], [], [], [], [], [], []], []⟩] =
      ⟨"gidd-events", .num 7⟩ ∧ (7 : Int) ≠ 0 := by
  refine ⟨rfl, by decide⟩

/-- C5 amended: in `count_events_by_year.fetch_count_for_bin` the claim
holds — one request whose URL carries `limit=1`, a result that never
depends on the response's pagination links (no pagination loop), and a
missing `numberMatched` treated as count 0 with a printed warning.  In
`count_events_per_collection.fetch_collection_count`, however, a missing
`numberMatched` (after a missing summary count) instead triggers the
manual full-pagination fallback, whose count is the sum of the fetched
page lengths, not zero. -/
theorem claim_C5_amended :
    (∀ (cid lbl : String) (r : ItemsResp), r.numberMatched = none →
      fetchCountForBin cid lbl (some r) =
        (⟨cid, lbl, .num 0⟩,
          ["WARNING: numberMatched not found for " ++ cid ++ " in " ++ lbl ++
           ". Count is 0."])) ∧
    (∀ (cid lbl : String) (m : Option Int) (links links2 : List Link),
      fetchCountForBin cid lbl (some ⟨m, links⟩) =
        fetchCountForBin cid lbl (some ⟨m, links2⟩)) ∧
    (∀ base cid rng : String, ∃ pre post,
      countUrl base cid rng = pre ++ "limit=1" ++ post) ∧
    (∀ (cid : String) (links : List Link) (fails : Nat → Bool)
      (pages : List Page), wfChain pages = true →
      (∀ j, j < pages.length → fails j = false) →
      fetchCollectionCount cid (some ⟨none⟩) (some ⟨none, links⟩) fails pages
        = ⟨cid, .num (Int.ofNat (sumLens pages))⟩) := by
  refine ⟨?_, ?_, ?_, ?_⟩
  · intro cid lbl r h
    obtain ⟨nm, links⟩ := r
    cases nm with
    | none => rfl
    | some n => simp at h
  · intro cid lbl m links links2
    cases m <;> rfl
  · intro base cid rng
    refine ⟨base ++ "/collections/" ++ cid ++ "/items?",
      "&datetime=" ++ rng, ?_⟩
    unfold countUrl
    refine String.ext ?_
    simp only [String.data_append, List.append_assoc]
    congr 1
  · intro cid links fails pages hwf hnf
    have h := countItemsGo_ok fails pages 0 0 hwf
      (fun j hj => by simpa using hnf j hj)
    unfold fetchCollectionCount
    simp only [countItemsManually, h, Nat.zero_add]

/-- C5 amended witness: a concrete response without `numberMatched` in
count mode yields count 0 plus the warning. -/
theorem claim_C5_amended_witness :
    fetchCountForBin "gidd-events" "1800-1849" (some ⟨none, []⟩) =
      (⟨"gidd-events", "1800-1849", .num 0⟩,
        ["WARNING: numberMatched not found for " ++ "gidd-events" ++ " in " ++
         "1800-1849" ++ ". Count is 0."]) :=
  claim_C5_amended.1 "gidd-events" "1800-1849" ⟨none, []⟩ rfl

/-! ## C7: fatal listing failure versus tolerated task failure -/

/-- C7: if the initial collection-listing request fails, each `main`
aborts immediately — no tasks, no records and no output (and the listing
helpers of all scripts return `[]` on failure) — whereas individual fetch
task failures never abort the batch: with the listing successful,
`count_events_by_year.main` always runs every task of the collections ×
bins product and writes its output regardless of the per-task failure
pattern `env`, and in `example_5.main` any one task's non-empty result
forces the output to be written no matter how every other task failed. -/
theorem claim_C7 :
    (∀ y env, mainByYear y none env = ⟨[], [], false, []⟩) ∧
    (∀ y env5, mainFive y none env5 = ⟨[], [], false, []⟩) ∧
    getAllCollections none = [] ∧
    (∀ y listing env, getEventCollections listing ≠ [] →
      (mainByYear y listing env).outputWritten = true ∧
      (mainByYear y listing env).tasks =
        (getEventCollections listing).flatMap
          (fun c => (genBinsCEY y).map (fun b => (c, b.label))) ∧
      (mainByYear y listing env).records =
        (mainByYear y listing env).tasks.map
          (fun t => (fetchCountForBin t.1 t.2 (env t.1 t.2)).1) ∧
      (mainByYear y listing env).sheets =
        exportByYear (mainByYear y listing env).records) ∧
    (∀ y listing env5, getHazardCollections listing ≠ [] →
      ∀ t ∈ (mainFive y listing env5).tasks,
        (fetchCountsForBin t.1 t.2 (env5 t.1 t.2).1 (env5 t.1 t.2).2).tallies
          ≠ [] →
        (mainFive y listing env5).outputWritten = true) := by
  refine ⟨fun y env => rfl, fun y env5 => rfl, rfl, ?_, ?_⟩
  · intro y listing env hne
    have h1 : ¬ (getEventCollections listing).isEmpty = true := by
      rw [List.isEmpty_iff]
      exact hne
    obtain ⟨c, cs, hcc⟩ : ∃ c cs, getEventCollections listing = c :: cs := by
      cases h : getEventCollections listing with
      | nil => exact absurd h hne
      | cons c cs => exact ⟨c, cs, rfl⟩
    have htasks : (getEventCollections listing).flatMap
        (fun c2 => (genBinsCEY y).map (fun b => (c2, b.label))) ≠ [] := by
      rw [hcc]
      simp [genBinsCEY]
    have h2 : ¬ (((getEventCollections listing).flatMap
        (fun c2 => (genBinsCEY y).map (fun b => (c2, b.label)))).map
          (fun t => (fetchCountForBin t.1 t.2 (env t.1 t.2)).1)).isEmpty
            = true := by
      rw [List.isEmpty_iff, List.map_eq_nil_iff]
      exact htasks
    have heq : mainByYear y listing env =
        ⟨(getEventCollections listing).flatMap
            (fun c2 => (genBinsCEY y).map (fun b => (c2, b.label))),
          ((getEventCollections listing).flatMap
            (fun c2 => (genBinsCEY y).map (fun b => (c2, b.label)))).map
              (fun t => (fetchCountForBin t.1 t.2 (env t.1 t.2)).1),
          true,
          exportByYear (((getEventCollections listing).flatMap
            (fun c2 => (genBinsCEY y).map (fun b => (c2, b.label)))).map
              (fun t => (fetchCountForBin t.1 t.2 (env t.1 t.2)).1))⟩ := by
      unfold mainByYear
      rw [if_neg h1, if_neg h2]
    rw [heq]
    exact ⟨rfl, rfl, rfl, rfl⟩
  · intro y listing env5 hne t ht htl
    have h1 : ¬ (getHazardCollections listing).isEmpty = true := by
      rw [List.isEmpty_iff]
      exact hne
    unfold mainFive at ht ⊢
    rw [if_neg h1] at ht ⊢
    simp only [] at ht ⊢
    set tasks := (getHazardCollections listing).flatMap
      (fun c => (genBins5 1800 50 y).map (fun b => (c, b.label))) with htdef
    set outs := tasks.map
      (fun t2 => fetchCountsForBin t2.1 t2.2 (env5 t2.1 t2.2).1
        (env5 t2.1 t2.2).2) with hodef
    have ht2 : t ∈ tasks := by
      split at ht
      · exact ht
      · exact ht
    have hrow : ∃ row, row ∈ aggregate5 outs := by
      obtain ⟨code, codes, htl2⟩ : ∃ c2 cs,
          (fetchCountsForBin t.1 t.2 (env5 t.1 t.2).1
            (env5 t.1 t.2).2).tallies = c2 :: cs := by
        cases h : (fetchCountsForBin t.1 t.2 (env5 t.1 t.2).1
            (env5 t.1 t.2).2).tallies with
        | nil => exact absurd h htl
        | cons c2 cs => exact ⟨c2, cs, rfl⟩
      refine ⟨⟨(fetchCountsForBin t.1 t.2 (env5 t.1 t.2).1
          (env5 t.1 t.2).2).collection,
        (fetchCountsForBin t.1 t.2 (env5 t.1 t.2).1
          (env5 t.1 t.2).2).period, code,
        ((fetchCountsForBin t.1 t.2 (env5 t.1 t.2).1
          (env5 t.1 t.2).2).tallies).count code⟩, ?_⟩
      unfold aggregate5
      refine List.mem_flatMap.mpr ⟨fetchCountsForBin t.1 t.2 (env5 t.1 t.2).1
        (env5 t.1 t.2).2, ?_, ?_⟩
      · exact List.mem_map.mpr ⟨t, ht2, rfl⟩
      · refine List.mem_map.mpr ⟨(code, ((fetchCountsForBin t.1 t.2
          (env5 t.1 t.2).1 (env5 t.1 t.2).2).tallies).count code), ?_, rfl⟩
        unfold counterOf
        refine List.mem_map.mpr ⟨code, ?_, rfl⟩
        rw [htl2]
        simp [dedupFirst]
    obtain ⟨row, hrow⟩ := hrow
    split
    next hcond =>
      exfalso
      have hnil : aggregate5 outs = [] := by
        simpa [List.isEmpty_iff] using hcond
      rw [hnil] at hrow
      simp at hrow
    next hcond => rfl

/-- C7 witness: a failed listing aborts with no tasks and no output; a
successful one-collection listing with an always-failing fetch environment
still runs its tasks and writes output. -/
theorem claim_C7_witness :
    mainByYear 2026 none (fun _ _ => none) = ⟨[], [], false, []⟩ ∧
    (mainByYear 2026 (some [⟨"gidd-events", ["event"]⟩])
      (fun _ _ => none)).outputWritten = true :=
  ⟨claim_C7.1 2026 (fun _ _ => none),
    (claim_C7.2.2.2.1 2026 (some [⟨"gidd-events", ["event"]⟩])
      (fun _ _ => none) (by decide)).1⟩

/-! ## C8: CSV output of the country-count script -/

theorem insertDesc_perm (x : String × Nat) :
    ∀ l, List.Perm (insertDesc x l) (x :: l) := by
  intro l
  induction l with
  | nil => exact List.Perm.refl _
  | cons y ys ih =>
    simp only [insertDesc]
    by_cases h : y.2 < x.2
    · rw [if_pos h]
    · rw [if_neg h]
      exact List.Perm.trans (List.Perm.cons y ih) (List.Perm.swap x y ys)

theorem chain_insertDesc (x : String × Nat) : ∀ {l : List (String × Nat)},
    List.Chain' (fun a b => b.2 ≤ a.2) l →
    List.Chain' (fun a b => b.2 ≤ a.2) (insertDesc x l) := by
  intro l
  induction l with
  | nil => intro _; simp [insertDesc]
  | cons y ys ih =>
    intro h
    have h1 := (List.chain'_cons'.mp h).1
    have h2 := (List.chain'_cons'.mp h).2
    simp only [insertDesc]
    by_cases hc : y.2 < x.2
    · rw [if_pos hc]
      exact List.chain'_cons.mpr ⟨by omega, h⟩
    · rw [if_neg hc]
      refine List.chain'_cons'.mpr ⟨?_, ih h2⟩
      intro z hz
      cases ys with
      | nil =>
        simp only [insertDesc, List.head?_cons, Option.mem_def,
          Option.some.injEq] at hz
        subst hz; omega
      | cons w ws =>
        simp only [insertDesc] at hz
        by_cases hw : w.2 < x.2
        · rw [if_pos hw] at hz
          simp only [List.head?_cons, Option.mem_def, Option.some.injEq] at hz
          subst hz; omega
        · rw [if_neg hw] at hz
          simp only [List.head?_cons, Option.mem_def, Option.some.injEq] at hz
          subst hz
          exact h1 w rfl

theorem mostCommon_sorted (counts : List (String × Nat)) :
    List.Chain' (fun a b => b.2 ≤ a.2) (mostCommon counts) := by
  induction counts with
  | nil => exact List.chain'_nil
  | cons x xs ih => exact chain_insertDesc x ih

theorem mostCommon_perm (counts : List (String × Nat)) :
    List.Perm (mostCommon counts) counts := by
  induction counts with
  | nil => exact List.Perm.refl _
  | cons x xs ih =>
    exact List.Perm.trans (insertDesc_perm x (mostCommon xs))
      (List.Perm.cons x ih)

/-- C8: the CSV written by `example_3_optimized.main` is the header row
`country_code, event_count` followed by one two-column row per tally (a
country code and its rendered integer count, a permutation of the
collected tallies), and adjacent data rows carry non-increasing counts
(sorted descending by count, as `Counter.most_common` guarantees). -/
theorem claim_C8 (counts : List (String × Nat)) :
    writeCsv counts = ["country_code", "event_count"] ::
      (mostCommon counts).map (fun p => [p.1, String.mk (toChars p.2)]) ∧
    (∀ row ∈ writeCsv counts, row.length = 2) ∧
    List.Chain' (fun p q => q.2 ≤ p.2) (mostCommon counts) ∧
    List.Perm (mostCommon counts) counts := by
  refine ⟨rfl, ?_, mostCommon_sorted counts, mostCommon_perm counts⟩
  intro row hrow
  rcases List.mem_cons.mp hrow with h | h
  · subst h; rfl
  · rcases List.mem_map.mp h with ⟨p, _, rfl⟩
    rfl

/-- C8 witness: the CSV rows for a concrete two-country tally. -/
theorem claim_C8_witness :
    writeCsv [("US", 2), ("CA", 5)] = ["country_code", "event_count"] ::
      (mostCommon [("US", 2), ("CA", 5)]).map
        (fun p => [p.1, String.mk (toChars p.2)]) ∧
    (∀ row ∈ writeCsv [("US", 2), ("CA", 5)], row.length = 2) ∧
    List.Chain' (fun p q => q.2 ≤ p.2) (mostCommon [("US", 2), ("CA", 5)]) ∧
    List.Perm (mostCommon [("US", 2), ("CA", 5)]) [("US", 2), ("CA", 5)] :=
  claim_C8 [("US", 2), ("CA", 5)]

/-! ## C6: same-day determinism of the time partitioners -/

/-- C6 counterexample: `generate_time_chunks` run twice on the same
calendar day (once at the midnight that is exactly the 1934 start plus one
5-year chunk, once an hour later) yields different bin sets — the second
run has one more chunk.  The year-granularity partitioners cannot exhibit
this, so the universal same-day determinism claim is false as stated. -/
theorem claim_C6_counterexample :
    (10540022400 + 157680000) / 86400 = (10540022400 + 157683600) / 86400 ∧
    genTimeChunks 10540022400 (10540022400 + 157680000) 5 ≠
      genTimeChunks 10540022400 (10540022400 + 157683600) 5 := by
  constructor
  · decide
  · decide

/-- C6 amended: the year-based partitioners (`generate_time_bins` in both
scripts) depend on the current date only through its calendar year, so two
runs on the same calendar day produce identical bin sets (boundaries and
labels); `generate_time_chunks` in `example_3_optimized.py`, by contrast,
uses the current time to the second as the range end, so two runs on the
same calendar day need not produce the same chunk set. -/
theorem claim_C6_amended (t1 t2 : Nat) (h : t1 / 86400 = t2 / 86400) :
    genBinsCEY (tsYear t1) = genBinsCEY (tsYear t2) ∧
    genBins5 1800 50 (tsYear t1) = genBins5 1800 50 (tsYear t2) ∧
    ¬ (∀ st u1 u2, u1 / 86400 = u2 / 86400 →
        genTimeChunks st u1 5 = genTimeChunks st u2 5) := by
  have hy : tsYear t1 = tsYear t2 := by
    unfold tsYear
    rw [h]
  refine ⟨by rw [hy], by rw [hy], ?_⟩
  intro hall
  have h2 := hall 10540022400 (10540022400 + 157680000)
    (10540022400 + 157683600) (by decide)
  exact absurd h2 (by decide)

/-- C6 amended witness: two timestamps one hour apart on the same day. -/
theorem claim_C6_amended_witness :
    genBinsCEY (tsYear 13447000000) = genBinsCEY (tsYear 13447003600) ∧
    genBins5 1800 50 (tsYear 13447000000) = genBins5 1800 50 (tsYear 13447003600) ∧
    ¬ (∀ st u1 u2, u1 / 86400 = u2 / 86400 →
        genTimeChunks st u1 5 = genTimeChunks st u2 5) :=
  claim_C6_amended 13447000000 13447003600 (by decide)

end Montandon
